import Mathlib

/-!
# Verification of the Avro → Arrow record decoder and schema translator

Shallow embedding of `arrow-avro/src/codec.rs` and
`arrow-avro/src/reader/record.rs` (the elastiflow/arrow-rs Avro reader core).

Conventions used throughout:

* A byte buffer is a `List Nat`, each element thought of as one byte
  (`< 256`); theorems whose meaning depends on byte-ness carry that bound
  as a hypothesis.
* Machine integers are modelled as `Nat`/`Int`, with explicit `% 2 ^ w`
  wrapping at the points where the source performs an `as` cast.
* Functions that recurse through the recursive data (type trees, decoder
  trees, block loops) take an explicit `fuel : Nat` first argument and are
  structurally recursive on it.  Running out of fuel yields a dedicated
  `AErr.fuelErr` that no theorem ever treats as a successful result, so
  every `.ok` result corresponds to a genuine terminating execution of the
  Rust source.
* Fallible Rust code returning `Result<_, ArrowError>` is modelled with
  `Except AErr _`; a Rust `panic!` inside an Arrow array constructor is
  modelled as an error (in either case no value is produced).
-/

/-- Error kinds surfaced by the embedded code, mirroring the `ArrowError`
variants the source constructs (`ParseError`, `NotYetImplemented`) plus
cursor short-read failures and the fuel-exhaustion artifact of the
embedding. -/
inductive AErr where
  | parseError (msg : String)
  | notYetImplemented (msg : String)
  | ioError (msg : String)
  | fuelErr
deriving DecidableEq, Repr

/-! ## Byte-level helpers -/

/-- Big-endian accumulation of a byte list into a natural number. -/
def beNat : List Nat → Nat
  | [] => 0
  | b :: t => b * 256 ^ t.length + beNat t

/-- Little-endian accumulation of a byte list into a natural number. -/
def leNat : List Nat → Nat
  | [] => 0
  | b :: t => b + 256 * leNat t

/-- A big-endian byte sequence read as a two's-complement signed integer of
width `8 * length` bits; the empty sequence denotes zero.  This is the
specification-side meaning that claim C2 compares the decoder against. -/
def beTwos (raw : List Nat) : Int :=
  match raw with
  | [] => 0
  | b :: _ =>
    if 128 ≤ b then (beNat raw : Int) - 2 ^ (8 * raw.length) else (beNat raw : Int)

/-- Reinterpret exactly `w` big-endian bytes as a signed two's-complement
integer of `8 * w` bits (the meaning of `iN::from_be_bytes`). -/
def intOfBe (w : Nat) (bytes : List Nat) : Int :=
  if beNat bytes < 2 ^ (8 * w - 1) then (beNat bytes : Int)
  else (beNat bytes : Int) - 2 ^ (8 * w)

/-- Four little-endian bytes as a signed 32-bit integer
(`i32::from_le_bytes`). -/
def i32Le (bytes : List Nat) : Int :=
  let u := leNat bytes
  if u < 2 ^ 31 then (u : Int) else (u : Int) - 2 ^ 32

/-- The value of `x as usize` when `x : i64`-like signed quantity is cast in
Rust (two's complement wrap to 64 bits). -/
def usizeOfInt (x : Int) : Nat := (x % 2 ^ 64).toNat

/-! ## The Avro cursor

`AvroCursor` lives in `arrow-avro/src/reader/cursor.rs`, which is not part
of the sources under review; the spec declares it an external collaborator
exposing `get_bool`, `get_int`, `get_long`, `get_float`, `get_double`,
`get_bytes`, `get_fixed(n)` over zig-zag varints and raw bytes.

Modelled from the spec: a cursor is the list of remaining bytes; each
primitive returns the parsed value plus the remaining suffix, or `none` on
a short / malformed read.  Zig-zag varints follow the glossary: 7-bit
groups, high bit = continuation, then `(n << 1) XOR (n >> 63)` undone. -/

/-- Modelled from the spec: read one base-128 varint (little-endian 7-bit
groups, high bit of each byte = continuation). -/
def readVarint : List Nat → Nat → Nat → Option (Nat × List Nat)
  | [], _, _ => none
  | b :: rest, shift, acc =>
    if b < 128 then some (acc + b * 2 ^ shift, rest)
    else readVarint rest (shift + 7) (acc + b % 128 * 2 ^ shift)

/-- Modelled from the spec: undo the zig-zag transform
`(n << 1) XOR (n >> w-1)`. -/
def zigzag (u : Nat) : Int :=
  if u % 2 = 0 then (u / 2 : Int) else -(u / 2 : Int) - 1

/-- Modelled from the spec: `AvroCursor::get_long` (zig-zag varint). -/
def getLong (c : List Nat) : Option (Int × List Nat) :=
  (readVarint c 0 0).map fun p => (zigzag p.1, p.2)

/-- Modelled from the spec: `AvroCursor::get_int` (same zig-zag scheme at
32-bit width). -/
def getInt (c : List Nat) : Option (Int × List Nat) :=
  (readVarint c 0 0).map fun p => (zigzag p.1, p.2)

/-- Modelled from the spec: `AvroCursor::get_fixed(n)` returns the next `n`
raw bytes. -/
def getFixed (n : Nat) (c : List Nat) : Option (List Nat × List Nat) :=
  if n ≤ c.length then some (c.take n, c.drop n) else none

/-- Modelled from the spec: `AvroCursor::get_bytes` — a `long` length
prefix followed by that many raw bytes. -/
def getBytes (c : List Nat) : Option (List Nat × List Nat) :=
  match getLong c with
  | none => none
  | some (len, c₁) => if 0 ≤ len then getFixed len.toNat c₁ else none

/-- Modelled from the spec: `AvroCursor::get_bool` — one byte, `0` false,
`1` true. -/
def getBool (c : List Nat) : Option (Bool × List Nat) :=
  match c with
  | 0 :: rest => some (false, rest)
  | 1 :: rest => some (true, rest)
  | _ => none

/-- Modelled from the spec: `AvroCursor::get_float` — four little-endian
IEEE bytes; the 32-bit pattern is kept as a `Nat` (no claim inspects float
arithmetic). -/
def getFloat (c : List Nat) : Option (Nat × List Nat) :=
  (getFixed 4 c).map fun p => (leNat p.1, p.2)

/-- Modelled from the spec: `AvroCursor::get_double` — eight little-endian
IEEE bytes kept as a 64-bit pattern. -/
def getDouble (c : List Nat) : Option (Nat × List Nat) :=
  (getFixed 8 c).map fun p => (leNat p.1, p.2)

/-! ## Decimal sign extension (`record.rs` lines 683–725) -/

/-- `sign_extend`: pad `raw` on the left to `target_len` bytes, with `0xFF`
when the high bit of the first byte is set and `0x00` otherwise; an empty
input yields all zeros.  (`target_len - raw.len()` is a `usize`
subtraction; for `raw` longer than `target_len` the Rust program cannot
return a value — the length check in the `sign_extend_to_*` wrappers below
reports the failure.) -/
def sign_extend (raw : List Nat) (targetLen : Nat) : List Nat :=
  match raw with
  | [] => List.replicate targetLen 0
  | b :: _ =>
    if 128 ≤ b % 256 then List.replicate (targetLen - raw.length) 255 ++ raw
    else List.replicate (targetLen - raw.length) 0 ++ raw

/-- `sign_extend_to_16`. -/
def sign_extend_to_16 (raw : List Nat) : Except AErr (List Nat) :=
  let extended := sign_extend raw 16
  if extended.length = 16 then .ok extended
  else .error (.parseError "Failed to extend to 16 bytes")

/-- `sign_extend_to_32`. -/
def sign_extend_to_32 (raw : List Nat) : Except AErr (List Nat) :=
  let extended := sign_extend raw 32
  if extended.length = 32 then .ok extended
  else .error (.parseError "Failed to extend to 32 bytes")

/-! ## `DecimalBuilder` (`record.rs` lines 577–681)

The Arrow `Decimal128Builder`/`Decimal256Builder` are modelled by the list
of appended integer values.  `with_precision_and_scale` performs Arrow's
precision/scale validation, modelled by `validPS` below (precision nonzero
and within the width's maximum, scale within the maximum and not above the
precision). -/

/-- `i8` view of a `usize` (`x as i8`): wrap to 8 bits, signed. -/
def i8OfNat (x : Nat) : Int :=
  if x % 256 < 128 then (x % 256 : Nat) else (x % 256 : Int) - 256

/-- Arrow's `validate_decimal_precision_and_scale` for a decimal type whose
maximum precision/scale is `maxP` (38 for 128-bit, 76 for 256-bit), applied
to the already-cast `u8` precision and `i8` scale. -/
def validPS (maxP : Nat) (p8 : Nat) (s8 : Int) : Bool :=
  p8 ≠ 0 && p8 ≤ maxP && s8 ≤ (maxP : Int) && s8 ≤ (p8 : Int)

/-- State of the source's `DecimalBuilder`: the chosen width plus the
values appended so far. -/
inductive DecimalBuilder where
  | dec128 (vals : List Int)
  | dec256 (vals : List Int)
deriving DecidableEq, Repr

/-- `DECIMAL128_MAX_PRECISION`. -/
def DECIMAL128_MAX_PRECISION : Nat := 38

/-- `DECIMAL256_MAX_PRECISION`. -/
def DECIMAL256_MAX_PRECISION : Nat := 76

/-- `DecimalBuilder::new(precision, scale, size)`. -/
def DecimalBuilder.new (precision : Nat) (scale : Option Nat) (size : Option Nat) :
    Except AErr DecimalBuilder :=
  match size with
  | some s =>
    if 16 < s ∧ s ≤ 32 then
      if validPS DECIMAL256_MAX_PRECISION (precision % 256) (i8OfNat (scale.getD 0)) then
        .ok (.dec256 [])
      else .error (.parseError "invalid precision or scale")
    else if s ≤ 16 then
      if validPS DECIMAL128_MAX_PRECISION (precision % 256) (i8OfNat (scale.getD 0)) then
        .ok (.dec128 [])
      else .error (.parseError "invalid precision or scale")
    else .error (.parseError "Unsupported decimal size")
  | none =>
    if precision ≤ DECIMAL128_MAX_PRECISION then
      if validPS DECIMAL128_MAX_PRECISION (precision % 256) (i8OfNat (scale.getD 0)) then
        .ok (.dec128 [])
      else .error (.parseError "invalid precision or scale")
    else if precision ≤ DECIMAL256_MAX_PRECISION then
      if validPS DECIMAL256_MAX_PRECISION (precision % 256) (i8OfNat (scale.getD 0)) then
        .ok (.dec256 [])
      else .error (.parseError "invalid precision or scale")
    else .error (.parseError "Decimal precision exceeds maximum supported")

/-- `DecimalBuilder::append_bytes`: sign-extend to the width and append the
big-endian two's-complement reinterpretation. -/
def DecimalBuilder.appendBytes (b : DecimalBuilder) (raw : List Nat) :
    Except AErr DecimalBuilder :=
  match b with
  | .dec128 vs =>
    match sign_extend_to_16 raw with
    | .error e => .error e
    | .ok padded => .ok (.dec128 (vs ++ [intOfBe 16 padded]))
  | .dec256 vs =>
    match sign_extend_to_32 raw with
    | .error e => .error e
    | .ok padded => .ok (.dec256 (vs ++ [intOfBe 32 padded]))

/-- `DecimalBuilder::append_null` (appends the value 0). -/
def DecimalBuilder.appendNullB (b : DecimalBuilder) : DecimalBuilder :=
  match b with
  | .dec128 vs => .dec128 (vs ++ [0])
  | .dec256 vs => .dec256 (vs ++ [0])

/-- Values held by a `DecimalBuilder`. -/
def DecimalBuilder.vals : DecimalBuilder → List Int
  | .dec128 vs => vs
  | .dec256 vs => vs

/-! ## Arithmetic lemmas for sign extension (claim C2) -/

theorem beNat_append (xs ys : List Nat) :
    beNat (xs ++ ys) = beNat xs * 256 ^ ys.length + beNat ys := by
  induction xs with
  | nil => simp [beNat]
  | cons b t ih =>
    simp only [List.cons_append, beNat, List.append_eq, List.length_append, ih]
    ring

theorem beNat_replicate_zero (k : Nat) : beNat (List.replicate k 0) = 0 := by
  induction k with
  | zero => simp [beNat]
  | succ n ih => simp [List.replicate_succ, beNat, ih]

theorem beNat_replicate_ff (k : Nat) :
    beNat (List.replicate k 255) = 256 ^ k - 1 := by
  induction k with
  | zero => simp [beNat]
  | succ n ih =>
    simp only [List.replicate_succ, beNat, List.length_replicate, ih, pow_succ]
    have h : 1 ≤ 256 ^ n := Nat.one_le_pow _ _ (by norm_num)
    omega

theorem beNat_lt (xs : List Nat) (h : ∀ b ∈ xs, b < 256) :
    beNat xs < 256 ^ xs.length := by
  induction xs with
  | nil => simp [beNat]
  | cons b t ih =>
    have hb : b < 256 := h b (by simp)
    have ht := ih (fun x hx => h x (by simp [hx]))
    simp only [beNat, List.length_cons, pow_succ]
    calc b * 256 ^ t.length + beNat t
        ≤ 255 * 256 ^ t.length + beNat t := by
          have : b ≤ 255 := by omega
          exact Nat.add_le_add_right (Nat.mul_le_mul_right _ this) _
      _ < 255 * 256 ^ t.length + 256 ^ t.length := by omega
      _ = 256 ^ t.length * 256 := by ring

theorem beNat_ge_of_high_bit (b : Nat) (t : List Nat) (hb : 128 ≤ b) :
    128 * 256 ^ t.length ≤ beNat (b :: t) := by
  simp only [beNat]
  have : 128 * 256 ^ t.length ≤ b * 256 ^ t.length :=
    Nat.mul_le_mul_right _ hb
  omega

/-- Core fact behind claim C2: sign-extending a big-endian two's-complement
byte string to `w` bytes and reinterpreting at width `8·w` preserves its
signed value. -/
theorem intOfBe_sign_extend (raw : List Nat) (w : Nat)
    (hlen : raw.length ≤ w) (hw : 1 ≤ w) (hb : ∀ b ∈ raw, b < 256) :
    intOfBe w (sign_extend raw w) = beTwos raw := by
  match raw with
  | [] =>
    simp only [sign_extend, intOfBe, beTwos, beNat_replicate_zero]
    have : (0 : Nat) < 2 ^ (8 * w - 1) := Nat.pos_pow_of_pos _ (by norm_num)
    simp [this]
  | b :: t =>
    have hblt : b < 256 := hb b (by simp)
    have hmod : b % 256 = b := Nat.mod_eq_of_lt hblt
    have hlen' : t.length + 1 ≤ w := by simpa using hlen
    by_cases hhigh : 128 ≤ b
    · -- negative case: pad with 0xFF
      simp only [sign_extend, hmod, if_pos hhigh, beTwos]
      set k := w - (b :: t).length with hk
      have hkw : k + (t.length + 1) = w := by
        simp only [hk, List.length_cons]; omega
      have hbe : beNat (List.replicate k 255 ++ b :: t) =
          (256 ^ k - 1) * 256 ^ (t.length + 1) + beNat (b :: t) := by
        rw [beNat_append, beNat_replicate_ff]; simp
      have hge : 128 * 256 ^ t.length ≤ beNat (b :: t) :=
        beNat_ge_of_high_bit b t hhigh
      have hpow : (256 : Nat) ^ w = 2 ^ (8 * w) := by
        rw [show (256 : Nat) = 2 ^ 8 by norm_num, ← pow_mul]
      have hpowk : 256 ^ k * 256 ^ (t.length + 1) = 2 ^ (8 * w) := by
        rw [← pow_add, hkw, hpow]
      have hone : 1 ≤ (256 : Nat) ^ k := Nat.one_le_pow _ _ (by norm_num)
      have hwsplit : 8 * w - 1 + 1 = 8 * w := by omega
      have hhalf : (2 : Nat) ^ (8 * w) = 2 ^ (8 * w - 1) * 2 := by
        rw [← pow_succ, hwsplit]
      have hle : 256 ^ t.length * 128 ≤ 2 ^ (8 * w - 1) := by
        have heq : (256 : Nat) ^ t.length * 128 = 2 ^ (8 * t.length + 7) := by
          rw [show (256 : Nat) = 2 ^ 8 by norm_num, ← pow_mul,
            show (128 : Nat) = 2 ^ 7 by norm_num, ← pow_add]
        rw [heq]
        exact Nat.pow_le_pow_right (by norm_num) (by omega)
      have hle2 : (256 : Nat) ^ (t.length + 1) ≤ 2 ^ (8 * w) := by
        calc (256 : Nat) ^ (t.length + 1) ≤ 256 ^ w :=
              Nat.pow_le_pow_right (by norm_num) hlen'
          _ = 2 ^ (8 * w) := hpow
      have hbig : 2 ^ (8 * w - 1) ≤ beNat (List.replicate k 255 ++ b :: t) := by
        rw [hbe]
        have h1 : 256 ^ k * 256 ^ (t.length + 1) - 256 ^ (t.length + 1) +
            128 * 256 ^ t.length ≤
            (256 ^ k - 1) * 256 ^ (t.length + 1) + beNat (b :: t) := by
          have := Nat.sub_mul (256 ^ k) 1 (256 ^ (t.length + 1))
          omega
        have h2 : 2 ^ (8 * w - 1) ≤ 256 ^ k * 256 ^ (t.length + 1) -
            256 ^ (t.length + 1) + 128 * 256 ^ t.length := by
          rw [hpowk]
          have e1 : (256 : Nat) ^ (t.length + 1) = 256 ^ t.length * 256 :=
            pow_succ _ _
          omega
        omega
      have hlenrep : (List.replicate k 255 ++ b :: t).length = w := by
        simp only [List.length_append, List.length_replicate, List.length_cons]
        omega
      have hsmall : beNat (List.replicate k 255 ++ b :: t) < 2 ^ (8 * w) := by
        have hx := beNat_lt (List.replicate k 255 ++ b :: t) (by
          intro x hx
          rcases List.mem_append.mp hx with hx | hx
          · have := List.eq_of_mem_replicate hx; omega
          · exact hb x hx)
        rw [hlenrep, hpow] at hx
        exact hx
      have hpowkInt : (256 : Int) ^ k * 256 ^ (t.length + 1) = 2 ^ (8 * w) := by
        exact_mod_cast hpowk
      have hLInt : (256 : Int) ^ (t.length + 1) = 2 ^ (8 * (t.length + 1)) := by
        rw [show (256 : Int) = 2 ^ 8 by norm_num, ← pow_mul]
      have hbeInt : (beNat (List.replicate k 255 ++ b :: t) : Int) =
          2 ^ (8 * w) - 2 ^ (8 * (t.length + 1)) + (beNat (b :: t) : Int) := by
        have h := hbe
        zify [hone] at h
        rw [h, ← hpowkInt, ← hLInt]
        ring
      simp only [intOfBe, List.length_cons]
      rw [if_neg (by omega), hbeInt]
      ring
    · -- non-negative case: pad with zeros
      simp only [sign_extend, hmod, if_neg hhigh, beTwos, if_neg hhigh]
      have hbe : beNat (List.replicate (w - (b :: t).length) 0 ++ b :: t) =
          beNat (b :: t) := by
        rw [beNat_append, beNat_replicate_zero]; simp
      have hlt : beNat (b :: t) < 2 ^ (8 * w - 1) := by
        have h1 : beNat (b :: t) < 128 * 256 ^ t.length := by
          simp only [beNat]
          have ht := beNat_lt t (fun x hx => hb x (by simp [hx]))
          have : b * 256 ^ t.length ≤ 127 * 256 ^ t.length :=
            Nat.mul_le_mul_right _ (by omega)
          omega
        have h2 : (128 : Nat) * 256 ^ t.length = 2 ^ (8 * t.length + 7) := by
          rw [show (256 : Nat) = 2 ^ 8 by norm_num, ← pow_mul,
            show (128 : Nat) = 2 ^ 7 by norm_num, ← pow_add]
          ring_nf
        have h3 : (8 : Nat) * t.length + 7 ≤ 8 * w - 1 := by omega
        calc beNat (b :: t) < 128 * 256 ^ t.length := h1
          _ = 2 ^ (8 * t.length + 7) := h2
          _ ≤ 2 ^ (8 * w - 1) := Nat.pow_le_pow_right (by norm_num) h3
      simp only [intOfBe, hbe]
      rw [if_pos hlt]

theorem sign_extend_length (raw : List Nat) (w : Nat) (hlen : raw.length ≤ w) :
    (sign_extend raw w).length = w := by
  match raw with
  | [] => simp [sign_extend]
  | b :: t =>
    simp only [sign_extend]
    have hc : (b :: t).length = t.length + 1 := List.length_cons b t
    split <;>
      simp only [List.length_append, List.length_replicate, hc] <;>
      omega

/-- `Except.ok` on the left of a monadic bind reduces. -/
theorem bind_ok_eq {ε α β : Type} (a : α) (f : α → Except ε β) :
    (Except.ok (ε := ε) a >>= f) = f a := rfl

/-- C2: For every `Decimal` column and every wire byte sequence of length at
most the physical size (16 bytes for a 128-bit builder, 32 for a 256-bit
builder), `DecimalBuilder::append_bytes` succeeds and appends exactly the
byte sequence read as a big-endian two's-complement integer (`0xFF` sign
padding when the first byte's high bit is set, `0x00` otherwise, empty
input decoding to zero). -/
theorem decimal_append_bytes_twos_complement (raw : List Nat)
    (hb : ∀ b ∈ raw, b < 256) :
    (raw.length ≤ 16 → ∀ vs, DecimalBuilder.appendBytes (.dec128 vs) raw =
      .ok (.dec128 (vs ++ [beTwos raw]))) ∧
    (raw.length ≤ 32 → ∀ vs, DecimalBuilder.appendBytes (.dec256 vs) raw =
      .ok (.dec256 (vs ++ [beTwos raw]))) := by
  constructor
  · intro hlen vs
    have hext := sign_extend_length raw 16 hlen
    have hval := intOfBe_sign_extend raw 16 hlen (by norm_num) hb
    have h16 : sign_extend_to_16 raw = .ok (sign_extend raw 16) := by
      simp [sign_extend_to_16, hext]
    simp only [DecimalBuilder.appendBytes, h16, hval]
  · intro hlen vs
    have hext := sign_extend_length raw 32 hlen
    have hval := intOfBe_sign_extend raw 32 hlen (by norm_num) hb
    have h32 : sign_extend_to_32 raw = .ok (sign_extend raw 32) := by
      simp [sign_extend_to_32, hext]
    simp only [DecimalBuilder.appendBytes, h32, hval]

/-- Witness for C2 at concrete inputs: the two-byte sequence `FB 2E`
(the `-1234` of the source's own test) on a 128-bit builder and the single
byte `0x85` on a 256-bit builder. -/
theorem decimal_append_bytes_twos_complement_witness :
    DecimalBuilder.appendBytes (.dec128 []) [0xFB, 0x2E] = .ok (.dec128 [-1234]) ∧
    DecimalBuilder.appendBytes (.dec256 []) [0x85] = .ok (.dec256 [-123]) := by
  have h1 := (decimal_append_bytes_twos_complement [0xFB, 0x2E] (by decide)).1
    (by decide) []
  have h2 := (decimal_append_bytes_twos_complement [0x85] (by decide)).2
    (by decide) []
  constructor
  · rw [h1]; rfl
  · rw [h2]; rfl

/-! ## The Avro type model (`codec.rs`)

`Codec`, `AvroDataType` and `AvroField` transcribe the source's enums;
`Vec`/`Arc<[..]>` become `List`, `HashMap<String, String>` metadata becomes
an association list (no claim inspects metadata contents). -/

/-- `Nullability`: position of the null variant inside the two-branch
union. -/
inductive Nullability where
  | nullFirst
  | nullSecond
deriving DecidableEq, Repr

mutual
/-- `Codec`: an Avro encoding. -/
inductive Codec where
  | null
  | boolean
  | int32
  | int64
  | float32
  | float64
  | binary
  | string
  | record (fields : List AvroField)
  | enum (symbols : List String) (defaults : List Int)
  | array (item : AvroDataType)
  | map (values : AvroDataType)
  | fixed (size : Int)
  | decimal (precision : Nat) (scale : Option Nat) (size : Option Nat)
  | uuid
  | date32
  | timeMillis
  | timeMicros
  | timestampMillis (isUtc : Bool)
  | timestampMicros (isUtc : Bool)
  | duration

/-- `AvroDataType`: `(nullability, metadata, codec)`. -/
inductive AvroDataType where
  | mk (nullability : Option Nullability) (metadata : List (String × String))
      (codec : Codec)

/-- `AvroField`: a named `AvroDataType` with an optional default (kept as
its rendered JSON text). -/
inductive AvroField where
  | mk (name : String) (dataType : AvroDataType) (default : Option String)
end

/-- `AvroDataType.nullability` accessor. -/
def AvroDataType.nullability : AvroDataType → Option Nullability
  | .mk n _ _ => n

/-- `AvroDataType.metadata` accessor. -/
def AvroDataType.metadata : AvroDataType → List (String × String)
  | .mk _ m _ => m

/-- `AvroDataType.codec` accessor. -/
def AvroDataType.codec : AvroDataType → Codec
  | .mk _ _ c => c

/-- `AvroDataType::from_codec`: no nullability, empty metadata. -/
def AvroDataType.from_codec (c : Codec) : AvroDataType := .mk none [] c

/-- Overwrite the nullability (the `dt.nullability = Some(..)` assignments
in the union arm of `make_data_type`). -/
def AvroDataType.withNullability : AvroDataType → Nullability → AvroDataType
  | .mk _ m c, nb => .mk (some nb) m c

/-- `AvroField.name` accessor. -/
def AvroField.name : AvroField → String
  | .mk n _ _ => n

/-- `AvroField.data_type` accessor. -/
def AvroField.data_type : AvroField → AvroDataType
  | .mk _ dt _ => dt

/-! ## The Arrow type model (`arrow-schema`, external dependency)

Only the `DataType` constructors the source produces or matches are
modelled.  `Dictionary(Box<DataType>, Box<DataType>)` keeps its two type
parameters in source order. -/

/-- Arrow `TimeUnit`. -/
inductive TimeUnitA where
  | second
  | millisecond
  | microsecond
  | nanosecond
deriving DecidableEq, Repr

/-- Arrow `IntervalUnit`. -/
inductive IntervalUnitA where
  | yearMonth
  | dayTime
  | monthDayNano
deriving DecidableEq, Repr

mutual
/-- Arrow `DataType` (the constructors used by the source). -/
inductive DataTypeA where
  | null
  | boolean
  | int8
  | int16
  | int32
  | int64
  | float32
  | float64
  | binary
  | largeBinary
  | utf8
  | struct (fields : List FieldA)
  | dictionary (a : DataTypeA) (b : DataTypeA)
  | list (item : FieldA)
  | map (entries : FieldA) (keysSorted : Bool)
  | fixedSizeBinary (n : Int)
  | decimal128 (p : Nat) (s : Int)
  | decimal256 (p : Nat) (s : Int)
  | date32
  | time32 (u : TimeUnitA)
  | time64 (u : TimeUnitA)
  | timestamp (u : TimeUnitA) (tz : Option String)
  | interval (u : IntervalUnitA)

/-- Arrow `Field`: `(name, data_type, nullable, metadata)`. -/
inductive FieldA where
  | mk (name : String) (dataType : DataTypeA) (nullable : Bool)
      (metadata : List (String × String))
end

/-- `Field::name`. -/
def FieldA.name : FieldA → String
  | .mk n _ _ _ => n

/-- `Field::data_type`. -/
def FieldA.dataType : FieldA → DataTypeA
  | .mk _ dt _ _ => dt

/-- `Field::is_nullable`. -/
def FieldA.nullable : FieldA → Bool
  | .mk _ _ nb _ => nb

/-- `Field::metadata`. -/
def FieldA.metadata : FieldA → List (String × String)
  | .mk _ _ _ m => m

/-- `Field::LIST_FIELD_DEFAULT_NAME`. -/
def LIST_FIELD_DEFAULT_NAME : String := "item"

/-- `DECIMAL128_MAX_SCALE` (Arrow constant, 38). -/
def DECIMAL128_MAX_SCALE : Nat := 38

/-- The Arrow `DataType` of a `Codec::Decimal(precision, scale, size)`
(the `Decimal` arm of `Codec::data_type`): `precision as u8`,
`scale.unwrap_or(0) as i8`, then 256-bit when `size > 16`, or, with no
size, when the (cast) precision or scale exceeds the 128-bit maxima. -/
def decimalArrowType (precision : Nat) (scale : Option Nat) (size : Option Nat) :
    DataTypeA :=
  let p8 : Nat := precision % 256
  let s8 : Int := i8OfNat (scale.getD 0)
  let tooLargeFor128 : Bool :=
    match size with
    | some sz => decide (16 < sz)
    | none =>
      decide (DECIMAL128_MAX_PRECISION < p8) || decide (DECIMAL128_MAX_SCALE < usizeOfInt s8)
  if tooLargeFor128 then .decimal256 p8 s8 else .decimal128 p8 s8

mutual
/-- `Codec::data_type` (fueled). -/
def Codec.dataType : Nat → Codec → Option DataTypeA
  | 0, _ => none
  | _fuel+1, .null => some .null
  | _fuel+1, .boolean => some .boolean
  | _fuel+1, .int32 => some .int32
  | _fuel+1, .int64 => some .int64
  | _fuel+1, .float32 => some .float32
  | _fuel+1, .float64 => some .float64
  | _fuel+1, .binary => some .binary
  | _fuel+1, .string => some .utf8
  | fuel+1, .record fields =>
    match avroFieldsArrow fuel fields with
    | none => none
    | some fs => some (.struct fs)
  | _fuel+1, .enum _ _ => some (.dictionary .utf8 .int32)
  | fuel+1, .array childType =>
    match Codec.dataType fuel childType.codec with
    | none => none
    | some childDt =>
      some (.list (.mk LIST_FIELD_DEFAULT_NAME childDt true childType.metadata))
  | fuel+1, .map valueType =>
    match Codec.dataType fuel valueType.codec with
    | none => none
    | some valDt =>
      some (.map
        (.mk "entries"
          (.struct [.mk "key" .utf8 false [],
                    .mk "value" valDt true valueType.metadata])
          false [])
        false)
  | _fuel+1, .fixed sz => some (.fixedSizeBinary sz)
  | _fuel+1, .decimal p s sz => some (decimalArrowType p s sz)
  | _fuel+1, .uuid => some (.fixedSizeBinary 16)
  | _fuel+1, .date32 => some .date32
  | _fuel+1, .timeMillis => some (.time32 .millisecond)
  | _fuel+1, .timeMicros => some (.time64 .microsecond)
  | _fuel+1, .timestampMillis isUtc =>
    some (.timestamp .millisecond (if isUtc then some "+00:00" else none))
  | _fuel+1, .timestampMicros isUtc =>
    some (.timestamp .microsecond (if isUtc then some "+00:00" else none))
  | _fuel+1, .duration => some (.interval .monthDayNano)

/-- `AvroDataType::field_with_name` (fueled). -/
def fieldWithName : Nat → AvroDataType → String → Option FieldA
  | 0, _, _ => none
  | fuel+1, dt, name =>
    match Codec.dataType fuel dt.codec with
    | none => none
    | some arrowDt => some (.mk name arrowDt dt.nullability.isSome dt.metadata)

/-- `AvroField::field` (fueled): `field_with_name` plus the `avro.default`
metadata entry when a default value is present. -/
def avroFieldArrow : Nat → AvroField → Option FieldA
  | 0, _ => none
  | fuel+1, .mk name dt dflt =>
    match fieldWithName fuel dt name with
    | none => none
    | some (.mk n adt nb md) =>
      match dflt with
      | none => some (.mk n adt nb md)
      | some d => some (.mk n adt nb (md ++ [("avro.default", d)]))

/-- The `fields.iter().map(|f| f.field()).collect()` loop of the `Record`
arm (fueled). -/
def avroFieldsArrow : Nat → List AvroField → Option (List FieldA)
  | 0, _ => none
  | _fuel+1, [] => some []
  | fuel+1, f :: fs =>
    match avroFieldArrow fuel f with
    | none => none
    | some fa =>
      match avroFieldsArrow fuel fs with
      | none => none
      | some fas => some (fa :: fas)
end

mutual
/-- `arrow_type_to_codec` (fueled); `none` models both fuel exhaustion and
the `struct_fields[1]` index panic on a malformed map entries struct. -/
def arrow_type_to_codec : Nat → DataTypeA → Option Codec
  | 0, _ => none
  | _fuel+1, .null => some .null
  | _fuel+1, .boolean => some .boolean
  | _fuel+1, .int8 => some .int32
  | _fuel+1, .int16 => some .int32
  | _fuel+1, .int32 => some .int32
  | _fuel+1, .int64 => some .int64
  | _fuel+1, .float32 => some .float32
  | _fuel+1, .float64 => some .float64
  | _fuel+1, .binary => some .binary
  | _fuel+1, .largeBinary => some .binary
  | _fuel+1, .utf8 => some .string
  | fuel+1, .struct fields =>
    match arrowFieldsToAvro fuel fields with
    | none => none
    | some fs => some (.record fs)
  | _fuel+1, .dictionary dictTy _valTy =>
    match dictTy with
    | .utf8 => some (.enum [] [])
    | _ => some .string
  | fuel+1, .list itemField =>
    match arrow_type_to_codec fuel itemField.dataType with
    | none => none
    | some itemCodec =>
      let childNullability := if itemField.nullable then some Nullability.nullFirst else none
      some (.array (.mk childNullability itemField.metadata itemCodec))
  | fuel+1, .map entriesField _keysSorted =>
    match entriesField.dataType with
    | .struct structFields =>
      match structFields.get? 1 with
      | none => none
      | some valField =>
        match arrow_type_to_codec fuel valField.dataType with
        | none => none
        | some valCodec =>
          let valNullability := if valField.nullable then some Nullability.nullFirst else none
          some (.map (.mk valNullability valField.metadata valCodec))
    | _ => some (.map (AvroDataType.from_codec .string))
  | _fuel+1, .fixedSizeBinary n => some (.fixed n)
  | _fuel+1, .decimal128 p s => some (.decimal p (some (usizeOfInt s)) (some 16))
  | _fuel+1, .decimal256 p s => some (.decimal p (some (usizeOfInt s)) (some 32))
  | _fuel+1, .date32 => some .date32
  | _fuel+1, .time32 .millisecond => some .timeMillis
  | _fuel+1, .time64 .microsecond => some .timeMicros
  | _fuel+1, .timestamp .millisecond (some tz) =>
    if tz = "UTC" then some (.timestampMillis true) else some .string
  | _fuel+1, .timestamp .millisecond none => some (.timestampMillis false)
  | _fuel+1, .timestamp .microsecond (some tz) =>
    if tz = "UTC" then some (.timestampMicros true) else some .string
  | _fuel+1, .timestamp .microsecond none => some (.timestampMicros false)
  | _fuel+1, .interval .monthDayNano => some .duration
  | _fuel+1, _ => some .string

/-- `arrow_field_to_avro_field` (fueled). -/
def arrow_field_to_avro_field : Nat → FieldA → Option AvroField
  | 0, _ => none
  | fuel+1, f =>
    match arrow_type_to_codec fuel f.dataType with
    | none => none
    | some codec =>
      let topNull := if f.nullable then some Nullability.nullFirst else none
      some (.mk f.name (.mk topNull f.metadata codec) none)

/-- The `fields.iter().map(arrow_field_to_avro_field).collect()` loop of
the `Struct` arm (fueled). -/
def arrowFieldsToAvro : Nat → List FieldA → Option (List AvroField)
  | 0, _ => none
  | _fuel+1, [] => some []
  | fuel+1, f :: fs =>
    match arrow_field_to_avro_field fuel f with
    | none => none
    | some af =>
      match arrowFieldsToAvro fuel fs with
      | none => none
      | some afs => some (af :: afs)
end

/-! ## Claim C8: decimal physical-storage selection -/

/-- C8 counterexample: the claim says storage is 128-bit *exactly* when
`sz ≤ 16` (or `sz` absent with `p ≤ 38`) and 256-bit in every other case
including `sz > 32`, but `DecimalBuilder::new` with `sz = 33` selects no
storage at all (parse error), and with `sz = 10, p = 50` — a claimed
128-bit case — it fails the 128-bit precision/scale validation instead of
picking 128-bit storage. -/
theorem decimal_storage_selection_cex :
    DecimalBuilder.new 5 (some 0) (some 33) =
      .error (.parseError "Unsupported decimal size") ∧
    DecimalBuilder.new 50 (some 0) (some 10) =
      .error (.parseError "invalid precision or scale") :=
  ⟨rfl, rfl⟩

/-- C8 (amended): for a `Decimal(p, s, sz)` type node with `1 ≤ p ≤ 76`
and `s ≤ p`: the builder picks 128-bit storage exactly when `p ≤ 38` and
(`sz ≤ 16` or `sz` absent), 256-bit exactly when `16 < sz ≤ 32` or (`sz`
absent and `38 < p`); in the remaining cases it picks no storage:
`sz > 32` is rejected as an unsupported size, and `sz ≤ 16` with `p > 38`
fails the 128-bit precision/scale validation.  The Arrow data-type
mapping alone follows the claim's rule on those failing inputs (`sz > 32`
maps to a 256-bit type, `sz ≤ 16` with `p > 38` to a 128-bit type).  A
missing scale defaults to 0 throughout. -/
theorem decimal_storage_selection (p : Nat) (s : Option Nat) (sz : Option Nat)
    (hp1 : 1 ≤ p) (hsp : s.getD 0 ≤ p) (hp76 : p ≤ 76) :
    (∀ k, sz = some k →
      (k ≤ 16 → p ≤ 38 →
        DecimalBuilder.new p s sz = .ok (.dec128 []) ∧
        decimalArrowType p s sz = .decimal128 p (s.getD 0 : Nat)) ∧
      (k ≤ 16 → 38 < p →
        DecimalBuilder.new p s sz =
          .error (.parseError "invalid precision or scale") ∧
        decimalArrowType p s sz = .decimal128 p (s.getD 0 : Nat)) ∧
      (16 < k → k ≤ 32 →
        DecimalBuilder.new p s sz = .ok (.dec256 []) ∧
        decimalArrowType p s sz = .decimal256 p (s.getD 0 : Nat)) ∧
      (32 < k →
        DecimalBuilder.new p s sz = .error (.parseError "Unsupported decimal size") ∧
        decimalArrowType p s sz = .decimal256 p (s.getD 0 : Nat))) ∧
    (sz = none →
      (p ≤ 38 →
        DecimalBuilder.new p s sz = .ok (.dec128 []) ∧
        decimalArrowType p s sz = .decimal128 p (s.getD 0 : Nat)) ∧
      (38 < p →
        DecimalBuilder.new p s sz = .ok (.dec256 []) ∧
        decimalArrowType p s sz = .decimal256 p (s.getD 0 : Nat))) := by
  have hp256 : p % 256 = p := Nat.mod_eq_of_lt (by omega)
  have hs256 : s.getD 0 % 256 = s.getD 0 := Nat.mod_eq_of_lt (by omega)
  have hi8 : i8OfNat (s.getD 0) = (s.getD 0 : Nat) := by
    simp only [i8OfNat, hs256]
    rw [if_pos (by omega)]
  have husize : usizeOfInt ((s.getD 0 : Nat) : Int) = s.getD 0 := by
    simp only [usizeOfInt]
    rw [Int.emod_eq_of_lt (by positivity) (by
      have : ((s.getD 0 : Nat) : Int) ≤ 76 := by exact_mod_cast hsp.trans hp76
      omega)]
    simp
  constructor
  · intro k hszk
    subst hszk
    refine ⟨?_, ?_, ?_, ?_⟩
    · intro hk16 hp38
      constructor
      · simp only [DecimalBuilder.new]
        rw [if_neg (by omega), if_pos hk16,
          if_pos (by simp [validPS, hp256, hi8, DECIMAL128_MAX_PRECISION]; omega)]
      · simp only [decimalArrowType, hp256, hi8]
        rw [if_neg (by simp; omega)]
    · intro hk16 hp38
      constructor
      · simp only [DecimalBuilder.new]
        rw [if_neg (by omega), if_pos hk16,
          if_neg (by simp [validPS, hp256, hi8, DECIMAL128_MAX_PRECISION]; omega)]
      · simp only [decimalArrowType, hp256, hi8]
        rw [if_neg (by simp; omega)]
    · intro hk16 hk32
      constructor
      · simp only [DecimalBuilder.new]
        rw [if_pos (by omega),
          if_pos (by simp [validPS, hp256, hi8, DECIMAL256_MAX_PRECISION]; omega)]
      · simp only [decimalArrowType, hp256, hi8]
        rw [if_pos (by simp; omega)]
    · intro hk32
      constructor
      · simp only [DecimalBuilder.new]
        rw [if_neg (by omega), if_neg (by omega)]
      · simp only [decimalArrowType, hp256, hi8]
        rw [if_pos (by simp; omega)]
  · intro hszn
    subst hszn
    constructor
    · intro hp38
      constructor
      · simp only [DecimalBuilder.new, DECIMAL128_MAX_PRECISION]
        rw [if_pos hp38,
          if_pos (by simp [validPS, hp256, hi8, DECIMAL128_MAX_PRECISION]; omega)]
      · simp only [decimalArrowType, hp256, hi8]
        rw [if_neg (by
          simp only [DECIMAL128_MAX_PRECISION, DECIMAL128_MAX_SCALE, husize,
            Bool.or_eq_true, decide_eq_true_eq]
          push_neg
          omega)]
    · intro hp38
      constructor
      · simp only [DecimalBuilder.new, DECIMAL128_MAX_PRECISION,
          DECIMAL256_MAX_PRECISION]
        rw [if_neg (by omega), if_pos hp76,
          if_pos (by simp [validPS, hp256, hi8, DECIMAL256_MAX_PRECISION]; omega)]
      · simp only [decimalArrowType, hp256, hi8]
        rw [if_pos (by
          simp only [DECIMAL128_MAX_PRECISION, Bool.or_eq_true, decide_eq_true_eq]
          omega)]

/-- Witness for C8 at concrete inputs: `Decimal(5, 2, 16)` (128-bit),
`Decimal(50, 2, none)` (256-bit), and `Decimal(50, 0, 10)` (builder
rejects, Arrow type still 128-bit). -/
theorem decimal_storage_selection_witness :
    DecimalBuilder.new 5 (some 2) (some 16) = .ok (.dec128 []) ∧
    DecimalBuilder.new 50 (some 2) none = .ok (.dec256 []) ∧
    decimalArrowType 50 (some 2) none = .decimal256 50 2 ∧
    DecimalBuilder.new 50 (some 0) (some 10) =
      .error (.parseError "invalid precision or scale") ∧
    decimalArrowType 50 (some 0) (some 10) = .decimal128 50 0 := by
  have h1 := ((decimal_storage_selection 5 (some 2) (some 16)
    (by decide) (by decide) (by decide)).1 16 rfl).1 (by decide) (by decide)
  have h2 := (decimal_storage_selection 50 (some 2) none
    (by decide) (by decide) (by decide)).2 rfl
  have h3 := ((decimal_storage_selection 50 (some 0) (some 10)
    (by decide) (by decide) (by decide)).1 10 rfl).2.1 (by decide) (by decide)
  exact ⟨h1.1, (h2.2 (by decide)).1, (h2.2 (by decide)).2, h3.1, h3.2⟩

/-! ## Claim C7: columnar → type model → columnar round-trip -/

/-- The *supported* columnar shapes: exactly the Arrow types the reverse
translator (`arrow_type_to_codec`) handles through a dedicated arm, as
listed in the spec — excluding the catch-all degradation to `Utf8`
(unknown types, non-`Utf8`-first dictionaries, non-millisecond `Time32`,
non-microsecond `Time64`, zones other than `"UTC"`, other intervals) and
excluding map entry structs too short for the `struct_fields[1]` access.
Decimal parameters are constrained to their `u8`/`i8` machine ranges. -/
inductive SupportedDT : DataTypeA → Prop where
  | null : SupportedDT .null
  | boolean : SupportedDT .boolean
  | int8 : SupportedDT .int8
  | int16 : SupportedDT .int16
  | int32 : SupportedDT .int32
  | int64 : SupportedDT .int64
  | float32 : SupportedDT .float32
  | float64 : SupportedDT .float64
  | binary : SupportedDT .binary
  | largeBinary : SupportedDT .largeBinary
  | utf8 : SupportedDT .utf8
  | struct (fs : List FieldA) :
      (∀ f ∈ fs, SupportedDT f.dataType) → SupportedDT (.struct fs)
  | dictionary (b : DataTypeA) : SupportedDT (.dictionary .utf8 b)
  | list (f : FieldA) : SupportedDT f.dataType → SupportedDT (.list f)
  | map (n : String) (sf : List FieldA) (nb : Bool)
      (md : List (String × String)) (ks : Bool) (vf : FieldA) :
      sf.get? 1 = some vf → SupportedDT vf.dataType →
      SupportedDT (.map (.mk n (.struct sf) nb md) ks)
  | fixedSizeBinary (n : Int) : SupportedDT (.fixedSizeBinary n)
  | decimal128 (p : Nat) (s : Int) (hp : p < 256) (hs1 : -128 ≤ s)
      (hs2 : s < 128) : SupportedDT (.decimal128 p s)
  | decimal256 (p : Nat) (s : Int) (hp : p < 256) (hs1 : -128 ≤ s)
      (hs2 : s < 128) : SupportedDT (.decimal256 p s)
  | date32 : SupportedDT .date32
  | time32ms : SupportedDT (.time32 .millisecond)
  | time64us : SupportedDT (.time64 .microsecond)
  | timestampMsUtc : SupportedDT (.timestamp .millisecond (some "UTC"))
  | timestampMsNone : SupportedDT (.timestamp .millisecond none)
  | timestampUsUtc : SupportedDT (.timestamp .microsecond (some "UTC"))
  | timestampUsNone : SupportedDT (.timestamp .microsecond none)
  | interval : SupportedDT (.interval .monthDayNano)

mutual
/-- Shape equivalence of claim C7 (amended): same variant and child
variants, same decimal precision and scale, same timestamp unit and zone
*presence* — modulo the collapses `Int8`/`Int16` → `Int32`,
`LargeBinary` → `Binary` (the amendment), and dictionary parameter
normalisation.  Field names, nullability flags, metadata and `keys_sorted`
are outside the claim and are ignored. -/
inductive ShapeEq : DataTypeA → DataTypeA → Prop where
  | null : ShapeEq .null .null
  | boolean : ShapeEq .boolean .boolean
  | int8 : ShapeEq .int8 .int32
  | int16 : ShapeEq .int16 .int32
  | int32 : ShapeEq .int32 .int32
  | int64 : ShapeEq .int64 .int64
  | float32 : ShapeEq .float32 .float32
  | float64 : ShapeEq .float64 .float64
  | binary : ShapeEq .binary .binary
  | largeBinary : ShapeEq .largeBinary .binary
  | utf8 : ShapeEq .utf8 .utf8
  | struct (fs fs' : List FieldA) :
      ShapeEqFields fs fs' → ShapeEq (.struct fs) (.struct fs')
  | dictionary (a b a' b' : DataTypeA) :
      ShapeEq (.dictionary a b) (.dictionary a' b')
  | list (f f' : FieldA) :
      ShapeEq f.dataType f'.dataType → ShapeEq (.list f) (.list f')
  | map (n n' : String) (sf sf' : List FieldA) (nb nb' : Bool)
      (md md' : List (String × String)) (ks ks' : Bool) (vf vf' : FieldA) :
      sf.get? 1 = some vf → sf'.get? 1 = some vf' →
      ShapeEq vf.dataType vf'.dataType →
      ShapeEq (.map (.mk n (.struct sf) nb md) ks)
        (.map (.mk n' (.struct sf') nb' md') ks')
  | fixedSizeBinary (n : Int) : ShapeEq (.fixedSizeBinary n) (.fixedSizeBinary n)
  | decimal128 (p : Nat) (s : Int) : ShapeEq (.decimal128 p s) (.decimal128 p s)
  | decimal256 (p : Nat) (s : Int) : ShapeEq (.decimal256 p s) (.decimal256 p s)
  | date32 : ShapeEq .date32 .date32
  | time32 (u : TimeUnitA) : ShapeEq (.time32 u) (.time32 u)
  | time64 (u : TimeUnitA) : ShapeEq (.time64 u) (.time64 u)
  | timestamp (u : TimeUnitA) (tz tz' : Option String) :
      tz.isSome = tz'.isSome → ShapeEq (.timestamp u tz) (.timestamp u tz')
  | interval (u : IntervalUnitA) : ShapeEq (.interval u) (.interval u)

/-- Pointwise `ShapeEq` of the data types of two field lists. -/
inductive ShapeEqFields : List FieldA → List FieldA → Prop where
  | nil : ShapeEqFields [] []
  | cons (f f' : FieldA) (t t' : List FieldA) :
      ShapeEq f.dataType f'.dataType → ShapeEqFields t t' →
      ShapeEqFields (f :: t) (f' :: t')
end

theorem i8OfNat_usizeOfInt (s : Int) (hs1 : -128 ≤ s) (hs2 : s < 128) :
    i8OfNat (usizeOfInt s) = s := by
  simp only [usizeOfInt, i8OfNat]
  have h64 : (0 : Int) ≤ s % 2 ^ 64 := Int.emod_nonneg s (by norm_num)
  have h64' : s % 2 ^ 64 < 2 ^ 64 := Int.emod_lt_of_pos s (by norm_num)
  rcases le_or_lt 0 s with hpos | hneg
  · have hmod : s % 2 ^ 64 = s := Int.emod_eq_of_lt hpos (by omega)
    have htn : (s % 2 ^ 64).toNat = s.toNat := by rw [hmod]
    rw [htn]
    have hlt : s.toNat < 128 := by omega
    have : s.toNat % 256 = s.toNat := Nat.mod_eq_of_lt (by omega)
    rw [this]
    rw [if_pos hlt]
    omega
  · have h2 : (2 : Int) ^ 64 = 18446744073709551616 := by norm_num
    have hmod : s % 2 ^ 64 = s + 2 ^ 64 := by
      rw [h2] at h64 h64' ⊢
      omega
    rw [hmod]
    have htn : (s + 2 ^ 64).toNat % 256 = (s + 256).toNat := by omega
    rw [htn]
    rw [if_neg (by omega)]
    omega

/-- C7 counterexample: `LargeBinary` is a supported columnar shape, yet the
round-trip through the type model returns `Binary` — a different variant
not covered by the claim's two allowed collapses (`Int8`/`Int16` → `I32`
and dictionary-with-`Utf8` → `Enum`). -/
theorem codec_roundtrip_shape_cex :
    SupportedDT .largeBinary ∧
    arrow_type_to_codec 1 .largeBinary = some .binary ∧
    Codec.dataType 1 .binary = some .binary ∧
    DataTypeA.binary ≠ DataTypeA.largeBinary :=
  ⟨.largeBinary, rfl, rfl, fun h => DataTypeA.noConfusion h⟩

/-- Combined induction for the round-trip: the statement for
`arrow_type_to_codec` paired with the statement for the field-list loops,
by strong induction on the first fuel. -/
theorem codec_roundtrip_shape_aux : ∀ fuel₁ : Nat,
    (∀ (fuel₂ : Nat) (dt : DataTypeA) (c : Codec) (dt' : DataTypeA),
      SupportedDT dt → arrow_type_to_codec fuel₁ dt = some c →
      Codec.dataType fuel₂ c = some dt' → ShapeEq dt dt') ∧
    (∀ (fuel₂ : Nat) (fs : List FieldA) (afs : List AvroField)
      (fas : List FieldA),
      (∀ f ∈ fs, SupportedDT f.dataType) →
      arrowFieldsToAvro fuel₁ fs = some afs →
      avroFieldsArrow fuel₂ afs = some fas → ShapeEqFields fs fas) := by
  intro fuel₁
  induction fuel₁ using Nat.strong_induction_on with
  | _ n ih =>
    match n with
    | 0 =>
      constructor
      · intro fuel₂ dt c dt' _ hc _
        simp [arrow_type_to_codec] at hc
      · intro fuel₂ fs afs fas _ hc _
        simp [arrowFieldsToAvro] at hc
    | k + 1 =>
      constructor
      · intro fuel₂ dt c dt' hsup hc hd
        match fuel₂ with
        | 0 => simp [Codec.dataType] at hd
        | m + 1 =>
          cases hsup with
          | null =>
            simp only [arrow_type_to_codec] at hc
            cases hc
            simp only [Codec.dataType] at hd
            cases hd
            exact .null
          | boolean =>
            simp only [arrow_type_to_codec] at hc; cases hc
            simp only [Codec.dataType] at hd; cases hd
            exact .boolean
          | int8 =>
            simp only [arrow_type_to_codec] at hc; cases hc
            simp only [Codec.dataType] at hd; cases hd
            exact .int8
          | int16 =>
            simp only [arrow_type_to_codec] at hc; cases hc
            simp only [Codec.dataType] at hd; cases hd
            exact .int16
          | int32 =>
            simp only [arrow_type_to_codec] at hc; cases hc
            simp only [Codec.dataType] at hd; cases hd
            exact .int32
          | int64 =>
            simp only [arrow_type_to_codec] at hc; cases hc
            simp only [Codec.dataType] at hd; cases hd
            exact .int64
          | float32 =>
            simp only [arrow_type_to_codec] at hc; cases hc
            simp only [Codec.dataType] at hd; cases hd
            exact .float32
          | float64 =>
            simp only [arrow_type_to_codec] at hc; cases hc
            simp only [Codec.dataType] at hd; cases hd
            exact .float64
          | binary =>
            simp only [arrow_type_to_codec] at hc; cases hc
            simp only [Codec.dataType] at hd; cases hd
            exact .binary
          | largeBinary =>
            simp only [arrow_type_to_codec] at hc; cases hc
            simp only [Codec.dataType] at hd; cases hd
            exact .largeBinary
          | utf8 =>
            simp only [arrow_type_to_codec] at hc; cases hc
            simp only [Codec.dataType] at hd; cases hd
            exact .utf8
          | struct fs hall =>
            simp only [arrow_type_to_codec] at hc
            cases hfs : arrowFieldsToAvro k fs with
            | none => rw [hfs] at hc; cases hc
            | some afs =>
              rw [hfs] at hc
              cases hc
              simp only [Codec.dataType] at hd
              cases hfas : avroFieldsArrow m afs with
              | none => rw [hfas] at hd; cases hd
              | some fas =>
                rw [hfas] at hd
                cases hd
                exact .struct _ _
                  ((ih k (by omega)).2 m fs afs fas hall hfs hfas)
          | dictionary b =>
            simp only [arrow_type_to_codec] at hc
            cases hc
            simp only [Codec.dataType] at hd
            cases hd
            exact .dictionary _ _ _ _
          | list f hf =>
            simp only [arrow_type_to_codec] at hc
            cases hic : arrow_type_to_codec k f.dataType with
            | none => rw [hic] at hc; cases hc
            | some ic =>
              rw [hic] at hc
              cases hc
              simp only [Codec.dataType, AvroDataType.codec,
                AvroDataType.metadata] at hd
              cases hcd : Codec.dataType m ic with
              | none => rw [hcd] at hd; cases hd
              | some childDt =>
                rw [hcd] at hd
                cases hd
                exact .list _ _
                  ((ih k (by omega)).1 m f.dataType ic childDt hf hic hcd)
          | map nm sf nb md ks vf hget hvf =>
            obtain ⟨vfn, vfdt, vfnb, vfmd⟩ := vf
            simp only [FieldA.dataType] at hvf
            simp only [arrow_type_to_codec, FieldA.dataType] at hc
            rw [hget] at hc
            simp only [FieldA.dataType, FieldA.nullable, FieldA.metadata] at hc
            cases hvc : arrow_type_to_codec k vfdt with
            | none => rw [hvc] at hc; cases hc
            | some vc =>
              rw [hvc] at hc
              cases hc
              simp only [Codec.dataType, AvroDataType.codec,
                AvroDataType.metadata] at hd
              cases hvd : Codec.dataType m vc with
              | none => rw [hvd] at hd; cases hd
              | some valDt =>
                rw [hvd] at hd
                cases hd
                exact .map nm "entries" sf
                  [.mk "key" .utf8 false [],
                   .mk "value" valDt true vfmd] nb false md [] ks false
                  (.mk vfn vfdt vfnb vfmd) (.mk "value" valDt true vfmd)
                  hget rfl
                  (by
                    simp only [FieldA.dataType]
                    exact (ih k (by omega)).1 m vfdt vc valDt hvf hvc hvd)
          | fixedSizeBinary nn =>
            simp only [arrow_type_to_codec] at hc; cases hc
            simp only [Codec.dataType] at hd; cases hd
            exact .fixedSizeBinary nn
          | decimal128 p s hp hs1 hs2 =>
            simp only [arrow_type_to_codec] at hc; cases hc
            simp only [Codec.dataType] at hd
            cases hd
            have : decimalArrowType p (some (usizeOfInt s)) (some 16) =
                .decimal128 p s := by
              simp only [decimalArrowType, Option.getD]
              rw [if_neg (by simp)]
              rw [Nat.mod_eq_of_lt hp, i8OfNat_usizeOfInt s hs1 hs2]
            rw [this]
            exact .decimal128 p s
          | decimal256 p s hp hs1 hs2 =>
            simp only [arrow_type_to_codec] at hc; cases hc
            simp only [Codec.dataType] at hd
            cases hd
            have : decimalArrowType p (some (usizeOfInt s)) (some 32) =
                .decimal256 p s := by
              simp only [decimalArrowType, Option.getD]
              rw [if_pos (by simp)]
              rw [Nat.mod_eq_of_lt hp, i8OfNat_usizeOfInt s hs1 hs2]
            rw [this]
            exact .decimal256 p s
          | date32 =>
            simp only [arrow_type_to_codec] at hc; cases hc
            simp only [Codec.dataType] at hd; cases hd
            exact .date32
          | time32ms =>
            simp only [arrow_type_to_codec] at hc; cases hc
            simp only [Codec.dataType] at hd; cases hd
            exact .time32 _
          | time64us =>
            simp only [arrow_type_to_codec] at hc; cases hc
            simp only [Codec.dataType] at hd; cases hd
            exact .time64 _
          | timestampMsUtc =>
            simp only [arrow_type_to_codec, if_pos] at hc
            cases hc
            simp only [Codec.dataType] at hd; cases hd
            exact .timestamp _ _ _ rfl
          | timestampMsNone =>
            simp only [arrow_type_to_codec] at hc; cases hc
            simp only [Codec.dataType] at hd; cases hd
            exact .timestamp _ _ _ rfl
          | timestampUsUtc =>
            simp only [arrow_type_to_codec, if_pos] at hc
            cases hc
            simp only [Codec.dataType] at hd; cases hd
            exact .timestamp _ _ _ rfl
          | timestampUsNone =>
            simp only [arrow_type_to_codec] at hc; cases hc
            simp only [Codec.dataType] at hd; cases hd
            exact .timestamp _ _ _ rfl
          | interval =>
            simp only [arrow_type_to_codec] at hc; cases hc
            simp only [Codec.dataType] at hd; cases hd
            exact .interval _
      · intro fuel₂ fs afs fas hall hc hd
        match fs with
        | [] =>
          simp only [arrowFieldsToAvro] at hc
          cases hc
          match fuel₂ with
          | 0 => simp [avroFieldsArrow] at hd
          | m + 1 =>
            simp only [avroFieldsArrow] at hd
            cases hd
            exact .nil
        | f :: ft =>
          simp only [arrowFieldsToAvro] at hc
          cases haf : arrow_field_to_avro_field k f with
          | none => rw [haf] at hc; cases hc
          | some af =>
            rw [haf] at hc
            cases hafs : arrowFieldsToAvro k ft with
            | none => rw [hafs] at hc; cases hc
            | some afs' =>
              rw [hafs] at hc
              cases hc
              match fuel₂ with
              | 0 => simp [avroFieldsArrow] at hd
              | m + 1 =>
                simp only [avroFieldsArrow] at hd
                cases hfa : avroFieldArrow m af with
                | none => rw [hfa] at hd; cases hd
                | some fa =>
                  rw [hfa] at hd
                  cases hfas : avroFieldsArrow m afs' with
                  | none => rw [hfas] at hd; cases hd
                  | some fas' =>
                    rw [hfas] at hd
                    cases hd
                    refine .cons f fa ft fas' ?_
                      ((ih k (by omega)).2 m ft afs' fas'
                        (fun g hg => hall g (by simp [hg])) hafs hfas)
                    -- head field: unfold the two field translations
                    match k, haf with
                    | 0, haf => simp [arrow_field_to_avro_field] at haf
                    | j + 1, haf =>
                      simp only [arrow_field_to_avro_field] at haf
                      cases hcodec : arrow_type_to_codec j f.dataType with
                      | none => rw [hcodec] at haf; cases haf
                      | some codec =>
                        rw [hcodec] at haf
                        cases haf
                        match m, hfa with
                        | 0, hfa => simp [avroFieldArrow] at hfa
                        | m' + 1, hfa =>
                          simp only [avroFieldArrow] at hfa
                          match m', hfa with
                          | 0, hfa => simp [fieldWithName] at hfa
                          | m'' + 1, hfa =>
                            simp only [fieldWithName, AvroDataType.codec,
                              AvroDataType.nullability,
                              AvroDataType.metadata] at hfa
                            cases hadt : Codec.dataType m'' codec with
                            | none => rw [hadt] at hfa; cases hfa
                            | some arrowDt =>
                              rw [hadt] at hfa
                              cases hfa
                              simp only [FieldA.dataType]
                              exact (ih j (by omega)).1 m'' f.dataType codec
                                arrowDt (hall f (by simp)) hcodec hadt

/-- C7 (amended): reverse translation of any supported columnar shape to
the type model followed by forward translation back to a columnar type
preserves the variant, the child variants, decimal precision and scale,
and timestamp zone presence, modulo the collapse of `Int8`/`Int16` to
`I32`, of dictionary-with-`Utf8` to `Enum` (whose dictionary parameters
are normalised on return), and — the amendment the counterexample forces —
of `LargeBinary` to `Binary`. -/
theorem codec_roundtrip_shape (fuel₁ fuel₂ : Nat) (dt : DataTypeA) (c : Codec)
    (dt' : DataTypeA) (hsup : SupportedDT dt)
    (hc : arrow_type_to_codec fuel₁ dt = some c)
    (hd : Codec.dataType fuel₂ c = some dt') : ShapeEq dt dt' :=
  (codec_roundtrip_shape_aux fuel₁).1 fuel₂ dt c dt' hsup hc hd

/-- Witness for C7 at a concrete shape: a struct with a nullable `Int8`
field collapses to `Int32` and otherwise round-trips shape-preservingly. -/
theorem codec_roundtrip_shape_witness :
    arrow_type_to_codec 10 (.struct [.mk "a" .int8 true []]) =
      some (.record [.mk "a" (.mk (some .nullFirst) [] .int32) none]) ∧
    Codec.dataType 10 (.record [.mk "a" (.mk (some .nullFirst) [] .int32) none]) =
      some (.struct [.mk "a" .int32 true []]) ∧
    ShapeEq (.struct [.mk "a" .int8 true []]) (.struct [.mk "a" .int32 true []]) :=
  ⟨rfl, rfl,
    codec_roundtrip_shape 10 10 _ _ _
      (.struct _ (by
        intro f hf
        simp only [List.mem_singleton] at hf
        subst hf
        exact .int8))
      rfl rfl⟩

/-! ## The Avro schema language (`crate::schema`)

`schema.rs` is not among the sources under review (the spec treats the
schema parser as input); the types below are *modelled from the spec*
(§4.2): primitive type names, named references, unions, records, enums,
arrays, maps, fixed, and decorated primitives carrying attributes.
`make_data_type` itself is transcribed from `codec.rs`. -/

/-- Modelled from the spec: Avro primitive type names. -/
inductive PrimitiveTypeS where
  | nullT
  | booleanT
  | intT
  | longT
  | floatT
  | doubleT
  | bytesT
  | stringT
deriving DecidableEq, Repr

/-- Modelled from the spec: attribute values — the JSON subset the
translator consumes (`as_u64` on numbers, stringification for
metadata). -/
inductive AttrVal where
  | num (n : Nat)
  | str (s : String)
deriving DecidableEq, Repr

/-- `Value::as_u64`. -/
def AttrVal.asU64 : AttrVal → Option Nat
  | .num n => some n
  | .str _ => none

/-- `Value::to_string` (rendering used for metadata; contents are not
inspected by any claim). -/
def AttrVal.render : AttrVal → String
  | .num n => toString n
  | .str s => s

/-- Modelled from the spec: schema attributes — `logicalType` plus
additional key-value pairs. -/
structure AttributesS where
  logicalType : Option String
  additional : List (String × AttrVal)
deriving DecidableEq, Repr

/-- Association-list lookup (`HashMap::get`). -/
def attrLookup : List (String × AttrVal) → String → Option AttrVal
  | [], _ => none
  | (k, v) :: t, key => if k = key then some v else attrLookup t key

/-- Modelled from the spec: `Attributes::field_metadata` — additional
attributes stringified into the field metadata map. -/
def AttributesS.field_metadata (a : AttributesS) : List (String × String) :=
  a.additional.map fun p => (p.1, p.2.render)

/-- Modelled from the spec: a type name is a primitive name or a named
reference. -/
inductive TypeNameS where
  | primitive (p : PrimitiveTypeS)
  | ref (name : String)
deriving DecidableEq, Repr

mutual
/-- Modelled from the spec: the Avro schema tree (`Schema` /
`ComplexType`). -/
inductive SchemaS where
  | typeName (tn : TypeNameS)
  | union (branches : List SchemaS)
  | recordS (name : String) (nmspace : Option String) (attrs : AttributesS)
      (fields : List SchemaFieldS)
  | enumS (name : String) (attrs : AttributesS) (symbols : List String)
  | arrayS (attrs : AttributesS) (items : SchemaS)
  | mapSch (attrs : AttributesS) (values : SchemaS)
  | fixedSch (name : String) (attrs : AttributesS) (size : Nat)
  | typeS (tn : TypeNameS) (attrs : AttributesS)

/-- Modelled from the spec: a record field — name, type, optional default
(kept as rendered JSON text). -/
inductive SchemaFieldS where
  | mk (name : String) (ty : SchemaS) (default : Option String)
end

/-- The schema value `Schema::TypeName(TypeName::Primitive(Null))` the
union arm searches for. -/
def isNullSchema : SchemaS → Bool
  | .typeName (.primitive .nullT) => true
  | _ => false

/-- `impl From<PrimitiveType> for Codec`. -/
def primCodec : PrimitiveTypeS → Codec
  | .nullT => .null
  | .booleanT => .boolean
  | .intT => .int32
  | .longT => .int64
  | .floatT => .float32
  | .doubleT => .float64
  | .bytesT => .binary
  | .stringT => .string

/-- `x as i32` on an unsigned quantity: wrap to 32 bits, signed. -/
def i32OfNat (x : Nat) : Int :=
  let m : Nat := x % 2 ^ 32
  if m < 2 ^ 31 then (m : Int) else (m : Int) - 2 ^ 32

/-- `Resolver`: `(simple name, namespace) → AvroDataType`; the `HashMap`
is an association list where `register` prepends (later registrations
shadow earlier ones, matching `HashMap::insert` overwrite followed by
lookup). -/
structure ResolverS where
  map : List ((String × String) × AvroDataType)

/-- `Resolver::default()`. -/
def ResolverS.empty : ResolverS := ⟨[]⟩

/-- `Resolver::register`. -/
def ResolverS.register (r : ResolverS) (name : String) (namespc : Option String)
    (dt : AvroDataType) : ResolverS :=
  ⟨((name, namespc.getD ""), dt) :: r.map⟩

/-- Association-list lookup for the resolver map. -/
def lookupPair : List ((String × String) × AvroDataType) → String → String →
    Option AvroDataType
  | [], _, _ => none
  | (k, v) :: t, nm, ns => if k.1 = nm ∧ k.2 = ns then some v else lookupPair t nm ns

/-- `str::rsplit_once('.')`: split a full name at its last dot. -/
def rsplitOnceDot (s : String) : Option (String × String) :=
  match (s.splitOn ".").reverse with
  | [] => none
  | [_] => none
  | last :: restRev => some (String.intercalate "." restRev.reverse, last)

/-- `Resolver::resolve`. -/
def ResolverS.resolve (r : ResolverS) (fullName : String)
    (namespc : Option String) : Except AErr AvroDataType :=
  let pair :=
    match rsplitOnceDot fullName with
    | some (a, b) => (a, b)
    | none => (namespc.getD "", fullName)
  match lookupPair r.map pair.2 pair.1 with
  | some dt => .ok dt
  | none =>
    .error (.parseError ("Failed to resolve " ++ pair.1 ++ "." ++ pair.2))

/-- Metadata insertion with `HashMap::insert` overwrite semantics. -/
def mdInsert (md : List (String × String)) (k v : String) :
    List (String × String) :=
  md.filter (fun p => p.1 ≠ k) ++ [(k, v)]

/-- The logical-type application table of the `Schema::Type` arm of
`make_data_type` (the `match (t.attributes.logical_type, &mut dt.codec)`
block). -/
def applyLogicalType (dt : AvroDataType) (attrs : AttributesS) : AvroDataType :=
  match attrs.logicalType, dt.codec with
  | some "decimal", .fixed sz =>
    let prec := ((attrLookup attrs.additional "precision").bind AttrVal.asU64).getD 10
    let sc := ((attrLookup attrs.additional "scale").bind AttrVal.asU64).getD 0
    let szNew : Int :=
      i32OfNat (((attrLookup attrs.additional "size").bind AttrVal.asU64).getD
        (usizeOfInt sz))
    .mk dt.nullability dt.metadata (.decimal prec (some sc) (some (usizeOfInt szNew)))
  | some "decimal", .binary =>
    let prec := ((attrLookup attrs.additional "precision").bind AttrVal.asU64).getD 10
    let sc := ((attrLookup attrs.additional "scale").bind AttrVal.asU64).getD 0
    .mk dt.nullability dt.metadata (.decimal prec (some sc) none)
  | some "uuid", .string => .mk dt.nullability dt.metadata .uuid
  | some "date", .int32 => .mk dt.nullability dt.metadata .date32
  | some "time-millis", .int32 => .mk dt.nullability dt.metadata .timeMillis
  | some "time-micros", .int64 => .mk dt.nullability dt.metadata .timeMicros
  | some "timestamp-millis", .int64 =>
    .mk dt.nullability dt.metadata (.timestampMillis true)
  | some "timestamp-micros", .int64 =>
    .mk dt.nullability dt.metadata (.timestampMicros true)
  | some "local-timestamp-millis", .int64 =>
    .mk dt.nullability dt.metadata (.timestampMillis false)
  | some "local-timestamp-micros", .int64 =>
    .mk dt.nullability dt.metadata (.timestampMicros false)
  | some "duration", .fixed 12 => .mk dt.nullability dt.metadata .duration
  | some other, _ =>
    .mk dt.nullability (mdInsert dt.metadata "logicalType" other) dt.codec
  | none, _ => dt

/-- The `for (k, v) in &t.attributes.additional` metadata loop of the
`Schema::Type` arm. -/
def addAttrMetadata (dt : AvroDataType) : List (String × AttrVal) → AvroDataType
  | [] => dt
  | (k, v) :: t =>
    addAttrMetadata (.mk dt.nullability (mdInsert dt.metadata k v.render) dt.codec) t

mutual
/-- `make_data_type` (fueled): parses an `AvroDataType` from a schema,
threading the mutable resolver. -/
def make_data_type : Nat → SchemaS → Option String → ResolverS →
    Except AErr (AvroDataType × ResolverS)
  | 0, _, _, _ => .error .fuelErr
  | _fuel+1, .typeName (.primitive p), _ns, resolver =>
    .ok (.mk none [] (primCodec p), resolver)
  | _fuel+1, .typeName (.ref name), ns, resolver =>
    match resolver.resolve name ns with
    | .error e => .error e
    | .ok dt => .ok (dt, resolver)
  | fuel+1, .union branches, ns, resolver =>
    match branches, branches.findIdx? isNullSchema with
    | [_, b], some 0 =>
      (match make_data_type fuel b ns resolver with
       | .error e => .error e
       | .ok (dt, r) => .ok (dt.withNullability .nullFirst, r))
    | [a, _], some 1 =>
      (match make_data_type fuel a ns resolver with
       | .error e => .error e
       | .ok (dt, r) => .ok (dt.withNullability .nullSecond, r))
    | _, _ => .error (.notYetImplemented "Union not currently supported")
  | fuel+1, .recordS name nmspace attrs fields, ns, resolver =>
    let nsNew := nmspace.or ns
    match makeFields fuel fields nsNew resolver with
    | .error e => .error e
    | .ok (avroFields, r₁) =>
      let recDt := AvroDataType.mk none attrs.field_metadata (.record avroFields)
      .ok (recDt, r₁.register name nsNew recDt)
  | _fuel+1, .enumS name attrs symbols, ns, resolver =>
    let en := AvroDataType.mk none attrs.field_metadata (.enum symbols [])
    .ok (en, resolver.register name ns en)
  | fuel+1, .arrayS attrs items, ns, resolver =>
    match make_data_type fuel items ns resolver with
    | .error e => .error e
    | .ok (child, r₁) =>
      .ok (.mk none attrs.field_metadata (.array child), r₁)
  | fuel+1, .mapSch attrs values, ns, resolver =>
    match make_data_type fuel values ns resolver with
    | .error e => .error e
    | .ok (val, r₁) =>
      .ok (.mk none attrs.field_metadata (.map val), r₁)
  | _fuel+1, .fixedSch name attrs size, ns, resolver =>
    let sizeI : Int := i32OfNat size
    match attrs.logicalType with
    | some "decimal" =>
      match (attrLookup attrs.additional "precision").bind AttrVal.asU64 with
      | none => .error (.parseError "Decimal requires precision")
      | some precision =>
        let scale := ((attrLookup attrs.additional "scale").bind AttrVal.asU64).getD 0
        let dec := AvroDataType.mk none attrs.field_metadata
          (.decimal precision (some scale) (some (usizeOfInt sizeI)))
        .ok (dec, resolver.register name ns dec)
    | _ =>
      let fixedDt := AvroDataType.mk none attrs.field_metadata (.fixed sizeI)
      .ok (fixedDt, resolver.register name ns fixedDt)
  | fuel+1, .typeS tn attrs, ns, resolver =>
    match make_data_type fuel (.typeName tn) ns resolver with
    | .error e => .error e
    | .ok (dt0, r₁) =>
      .ok (addAttrMetadata (applyLogicalType dt0 attrs) attrs.additional, r₁)

/-- The record-field loop of `make_data_type` (fueled), threading the
resolver left to right. -/
def makeFields : Nat → List SchemaFieldS → Option String → ResolverS →
    Except AErr (List AvroField × ResolverS)
  | 0, _, _, _ => .error .fuelErr
  | _fuel+1, [], _, r => .ok ([], r)
  | fuel+1, .mk name ty dflt :: fs, ns, r =>
    match make_data_type fuel ty ns r with
    | .error e => .error e
    | .ok (dt, r₁) =>
      match makeFields fuel fs ns r₁ with
      | .error e => .error e
      | .ok (rest, r₂) => .ok (.mk name dt dflt :: rest, r₂)
end

/-! ## Claim C4: union acceptance in the forward translator -/

/-- C4 counterexample: the claim says a union with two null branches fails
with `not_yet_implemented`, but the translator accepts
`["null", "null"]`, resolving it to a `NullFirst`-nullable `Null`. -/
theorem make_data_type_union_cex :
    make_data_type 2
      (.union [.typeName (.primitive .nullT), .typeName (.primitive .nullT)])
      none ResolverS.empty =
      .ok (.mk (some .nullFirst) [] .null, ResolverS.empty) ∧
    ∀ msg, (.ok (.mk (some .nullFirst) [] .null, ResolverS.empty) :
        Except AErr (AvroDataType × ResolverS)) ≠
      .error (.notYetImplemented msg) :=
  ⟨rfl, fun _ h => Except.noConfusion h⟩

/-- C4 (amended): the union arm of `make_data_type` proceeds exactly when
the union has two branches and contains at least one null branch: if the
*first* null branch is at position 0 it resolves branch 1 and annotates
`NullFirst`; if the first (hence only) null is at position 1 it resolves
branch 0 and annotates `NullSecond`; every other shape — more than two
branches, fewer than two, or no null branch — fails with
`not_yet_implemented`.  Overall success additionally requires the selected
branch itself to resolve. -/
theorem make_data_type_union (fuel : Nat) (branches : List SchemaS)
    (ns : Option String) (r : ResolverS) :
    (∀ a b, branches = [a, b] → branches.findIdx? isNullSchema = some 0 →
      make_data_type (fuel + 1) (.union branches) ns r =
        (match make_data_type fuel b ns r with
         | .error e => .error e
         | .ok (dt, r₁) => .ok (dt.withNullability .nullFirst, r₁))) ∧
    (∀ a b, branches = [a, b] → branches.findIdx? isNullSchema = some 1 →
      make_data_type (fuel + 1) (.union branches) ns r =
        (match make_data_type fuel a ns r with
         | .error e => .error e
         | .ok (dt, r₁) => .ok (dt.withNullability .nullSecond, r₁))) ∧
    (branches.length ≠ 2 ∨ branches.findIdx? isNullSchema = none →
      make_data_type (fuel + 1) (.union branches) ns r =
        .error (.notYetImplemented "Union not currently supported")) := by
  refine ⟨?_, ?_, ?_⟩
  · intro a b hbr hidx
    subst hbr
    simp only [make_data_type, hidx]
  · intro a b hbr hidx
    subst hbr
    simp only [make_data_type, hidx]
  · intro h
    match branches, h with
    | [], _ => simp only [make_data_type, List.findIdx?]
    | [a], _ => simp only [make_data_type, List.findIdx?]
    | [a, b], h =>
      have hn : List.findIdx? isNullSchema [a, b] = none := by
        rcases h with h | h
        · simp at h
        · exact h
      simp only [make_data_type, hn]
    | a :: b :: c :: t, _ => simp only [make_data_type]

/-- Witness for C4 at a concrete union: `["int", "null"]` resolves to a
`NullSecond`-nullable `Int32`. -/
theorem make_data_type_union_witness :
    make_data_type 2
      (.union [.typeName (.primitive .intT), .typeName (.primitive .nullT)])
      none ResolverS.empty =
      .ok (.mk (some .nullSecond) [] .int32, ResolverS.empty) := by
  have h := (make_data_type_union 1
    [.typeName (.primitive .intT), .typeName (.primitive .nullT)]
    none ResolverS.empty).2.1
    (.typeName (.primitive .intT)) (.typeName (.primitive .nullT)) rfl (by rfl)
  rw [h]
  rfl

/-! ## The column builder tree (`record.rs` `Decoder`)

Growable buffers become lists of their pushed contents.  An
`OffsetBufferBuilder` is the list of the *lengths* passed to
`push_length`; `finish` produces the cumulative offsets, so the offset
list of the finished arrays is the running sum of that list. -/

/-- `Decoder`: one builder variant per type variant. -/
inductive Decoder where
  | nullD (count : Nat)
  | boolean (values : List Bool)
  | int32 (values : List Int)
  | int64 (values : List Int)
  | float32 (values : List Nat)
  | float64 (values : List Nat)
  | binary (offsets : List Nat) (data : List Nat)
  | stringD (offsets : List Nat) (data : List Nat)
  | record (fields : List FieldA) (children : List Decoder)
  | enum (symbols : List String) (indices : List Int)
  | list (field : FieldA) (offsets : List Nat) (child : Decoder)
  | mapD (field : FieldA) (keyOffsets : List Nat) (mapOffsets : List Nat)
      (keyData : List Nat) (valuesD : Decoder) (entryCount : Nat)
  | nullable (nb : Nullability) (nulls : List Bool) (child : Decoder)
  | fixed (size : Int) (data : List Nat)
  | decimal (precision : Nat) (scale : Option Nat) (size : Option Nat)
      (builder : DecimalBuilder)
  | date32 (values : List Int)
  | timeMillis (values : List Int)
  | timeMicros (values : List Int)
  | timestampMillis (isUtc : Bool) (values : List Int)
  | timestampMicros (isUtc : Bool) (values : List Int)
  | interval (values : List (Int × Int × Int))

/-- `Decoder::is_nullable`. -/
def Decoder.is_nullable : Decoder → Bool
  | .nullable _ _ _ => true
  | _ => false

mutual
/-- `Decoder::append_null` (fueled). -/
def appendNull : Nat → Decoder → Option Decoder
  | 0, _ => none
  | _fuel+1, .nullD n => some (.nullD (n + 1))
  | _fuel+1, .boolean v => some (.boolean (v ++ [false]))
  | _fuel+1, .int32 v => some (.int32 (v ++ [0]))
  | _fuel+1, .int64 v => some (.int64 (v ++ [0]))
  | _fuel+1, .float32 v => some (.float32 (v ++ [0]))
  | _fuel+1, .float64 v => some (.float64 (v ++ [0]))
  | _fuel+1, .binary off d => some (.binary (off ++ [0]) d)
  | _fuel+1, .stringD off d => some (.stringD (off ++ [0]) d)
  | fuel+1, .record fs cs =>
    match appendNullList fuel cs with
    | none => none
    | some cs' => some (.record fs cs')
  | _fuel+1, .enum s idx => some (.enum s (idx ++ [0]))
  | fuel+1, .list f off c =>
    match appendNull fuel c with
    | none => none
    | some c' => some (.list f (off ++ [0]) c')
  | _fuel+1, .mapD f ko mo kd v cnt =>
    some (.mapD f (ko ++ [0]) (mo ++ [cnt]) kd v cnt)
  | _fuel+1, .nullable nb ns c => some (.nullable nb ns c)
  | _fuel+1, .fixed sz buf =>
    some (.fixed sz (buf ++ List.replicate (usizeOfInt sz) 0))
  | _fuel+1, .decimal p s z b => some (.decimal p s z b.appendNullB)
  | _fuel+1, .date32 v => some (.date32 (v ++ [0]))
  | _fuel+1, .timeMillis v => some (.timeMillis (v ++ [0]))
  | _fuel+1, .timeMicros v => some (.timeMicros (v ++ [0]))
  | _fuel+1, .timestampMillis u v => some (.timestampMillis u (v ++ [0]))
  | _fuel+1, .timestampMicros u v => some (.timestampMicros u (v ++ [0]))
  | _fuel+1, .interval v => some (.interval (v ++ [(0, 0, 0)]))

/-- The `for c in children` loop of `append_null` on records (fueled). -/
def appendNullList : Nat → List Decoder → Option (List Decoder)
  | 0, _ => none
  | _fuel+1, [] => some []
  | fuel+1, c :: cs =>
    match appendNull fuel c with
    | none => none
    | some c' =>
      match appendNullList fuel cs with
      | none => none
      | some cs' => some (c' :: cs')
end

mutual
/-- `Decoder::decode` (fueled): decode a single row from the cursor. -/
def decodeD : Nat → Decoder → List Nat → Except AErr (Decoder × List Nat)
  | 0, _, _ => .error .fuelErr
  | _fuel+1, .nullD n, c => .ok (.nullD (n + 1), c)
  | _fuel+1, .boolean v, c =>
    match getBool c with
    | none => .error (.ioError "get_bool")
    | some (b, c') => .ok (.boolean (v ++ [b]), c')
  | _fuel+1, .int32 v, c =>
    match getInt c with
    | none => .error (.ioError "get_int")
    | some (i, c') => .ok (.int32 (v ++ [i]), c')
  | _fuel+1, .int64 v, c =>
    match getLong c with
    | none => .error (.ioError "get_long")
    | some (i, c') => .ok (.int64 (v ++ [i]), c')
  | _fuel+1, .float32 v, c =>
    match getFloat c with
    | none => .error (.ioError "get_float")
    | some (x, c') => .ok (.float32 (v ++ [x]), c')
  | _fuel+1, .float64 v, c =>
    match getDouble c with
    | none => .error (.ioError "get_double")
    | some (x, c') => .ok (.float64 (v ++ [x]), c')
  | _fuel+1, .binary off d, c =>
    match getBytes c with
    | none => .error (.ioError "get_bytes")
    | some (bs, c') => .ok (.binary (off ++ [bs.length]) (d ++ bs), c')
  | _fuel+1, .stringD off d, c =>
    match getBytes c with
    | none => .error (.ioError "get_bytes")
    | some (bs, c') => .ok (.stringD (off ++ [bs.length]) (d ++ bs), c')
  | fuel+1, .record fs cs, c =>
    match decodeFields fuel cs c with
    | .error e => .error e
    | .ok (cs', c') => .ok (.record fs cs', c')
  | _fuel+1, .enum s idx, c =>
    match getInt c with
    | none => .error (.ioError "get_int")
    | some (i, c') => .ok (.enum s (idx ++ [i]), c')
  | fuel+1, .list f off child, c =>
    match readArrayBlocks fuel child c with
    | .error e => .error e
    | .ok (child', total, c') => .ok (.list f (off ++ [total]) child', c')
  | fuel+1, .mapD f ko mo kd v cnt, c =>
    match readMapBlocks fuel ko kd v c with
    | .error e => .error e
    | .ok (ko', kd', v', newly, c') =>
      .ok (.mapD f ko' (mo ++ [cnt + newly]) kd' v' (cnt + newly), c')
  | fuel+1, .nullable nb ns child, c =>
    match getInt c with
    | none => .error (.ioError "get_int")
    | some (branch, c₁) =>
      match nb with
      | .nullFirst =>
        if branch = 0 then
          match appendNull fuel child with
          | none => .error .fuelErr
          | some child' => .ok (.nullable nb (ns ++ [false]) child', c₁)
        else if branch = 1 then
          match decodeD fuel child c₁ with
          | .error e => .error e
          | .ok (child', c₂) => .ok (.nullable nb (ns ++ [true]) child', c₂)
        else
          .error (.parseError "Unsupported union branch index for Nullable (NullFirst)")
      | .nullSecond =>
        if branch = 0 then
          match decodeD fuel child c₁ with
          | .error e => .error e
          | .ok (child', c₂) => .ok (.nullable nb (ns ++ [true]) child', c₂)
        else if branch = 1 then
          match appendNull fuel child with
          | none => .error .fuelErr
          | some child' => .ok (.nullable nb (ns ++ [false]) child', c₁)
        else
          .error (.parseError "Unsupported union branch index for Nullable (NullSecond)")
  | _fuel+1, .fixed sz buf, c =>
    match getFixed (usizeOfInt sz) c with
    | none => .error (.ioError "get_fixed")
    | some (bs, c') => .ok (.fixed sz (buf ++ bs), c')
  | _fuel+1, .decimal p s z b, c =>
    match (match z with
           | some szv => getFixed szv c
           | none => getBytes c) with
    | none => .error (.ioError "decimal read")
    | some (bs, c') =>
      match b.appendBytes bs with
      | .error e => .error e
      | .ok b' => .ok (.decimal p s z b', c')
  | _fuel+1, .date32 v, c =>
    match getInt c with
    | none => .error (.ioError "get_int")
    | some (i, c') => .ok (.date32 (v ++ [i]), c')
  | _fuel+1, .timeMillis v, c =>
    match getInt c with
    | none => .error (.ioError "get_int")
    | some (i, c') => .ok (.timeMillis (v ++ [i]), c')
  | _fuel+1, .timeMicros v, c =>
    match getLong c with
    | none => .error (.ioError "get_long")
    | some (i, c') => .ok (.timeMicros (v ++ [i]), c')
  | _fuel+1, .timestampMillis u v, c =>
    match getLong c with
    | none => .error (.ioError "get_long")
    | some (i, c') => .ok (.timestampMillis u (v ++ [i]), c')
  | _fuel+1, .timestampMicros u v, c =>
    match getLong c with
    | none => .error (.ioError "get_long")
    | some (i, c') => .ok (.timestampMicros u (v ++ [i]), c')
  | _fuel+1, .interval v, c =>
    match getFixed 12 c with
    | none => .error (.ioError "get_fixed")
    | some (raw, c') =>
      let months := i32Le (raw.take 4)
      let days := i32Le ((raw.drop 4).take 4)
      let millis := i32Le ((raw.drop 8).take 4)
      .ok (.interval (v ++ [(months, days, millis * 1000000)]), c')

/-- The `for c in children` loop of `decode` on records (fueled). -/
def decodeFields : Nat → List Decoder → List Nat →
    Except AErr (List Decoder × List Nat)
  | 0, _, _ => .error .fuelErr
  | _fuel+1, [], c => .ok ([], c)
  | fuel+1, d :: ds, c =>
    match decodeD fuel d c with
    | .error e => .error e
    | .ok (d', c₁) =>
      match decodeFields fuel ds c₁ with
      | .error e => .error e
      | .ok (ds', c₂) => .ok (d' :: ds', c₂)

/-- `read_array_blocks` (fueled): loop over blocks until a zero
block count; a negative count is followed by a discarded block size. -/
def readArrayBlocks : Nat → Decoder → List Nat →
    Except AErr (Decoder × Nat × List Nat)
  | 0, _, _ => .error .fuelErr
  | fuel+1, child, c =>
    match getLong c with
    | none => .error (.ioError "get_long")
    | some (blockCount, c₁) =>
      if blockCount = 0 then .ok (child, 0, c₁)
      else if blockCount < 0 then
        match getLong c₁ with
        | none => .error (.ioError "get_long")
        | some (_, c₂) =>
          match readItems fuel (-blockCount).toNat child c₂ with
          | .error e => .error e
          | .ok (child', c₃) =>
            match readArrayBlocks fuel child' c₃ with
            | .error e => .error e
            | .ok (child'', total, c₄) =>
              .ok (child'', (-blockCount).toNat + total, c₄)
      else
        match readItems fuel blockCount.toNat child c₁ with
        | .error e => .error e
        | .ok (child', c₂) =>
          match readArrayBlocks fuel child' c₂ with
          | .error e => .error e
          | .ok (child'', total, c₃) =>
            .ok (child'', blockCount.toNat + total, c₃)

/-- The `for _ in 0..item_count { decode_item(buf)?; }` loop (fueled). -/
def readItems : Nat → Nat → Decoder → List Nat →
    Except AErr (Decoder × List Nat)
  | 0, _, _, _ => .error .fuelErr
  | _fuel+1, 0, child, c => .ok (child, c)
  | fuel+1, n+1, child, c =>
    match decodeD fuel child c with
    | .error e => .error e
    | .ok (child', c₁) => readItems fuel n child' c₁

/-- `read_map_blocks` (fueled): reads a single signed block count; `≤ 0`
decodes nothing, a positive count decodes exactly that many entries — no
loop, only the first block is honored. -/
def readMapBlocks : Nat → List Nat → List Nat → Decoder → List Nat →
    Except AErr (List Nat × List Nat × Decoder × Nat × List Nat)
  | 0, _, _, _, _ => .error .fuelErr
  | fuel+1, keyOff, keyData, valD, c =>
    match getLong c with
    | none => .error (.ioError "get_long")
    | some (blockCount, c₁) =>
      if blockCount ≤ 0 then .ok (keyOff, keyData, valD, 0, c₁)
      else
        match readMapItems fuel blockCount.toNat keyOff keyData valD c₁ with
        | .error e => .error e
        | .ok (ko', kd', v', c₂) => .ok (ko', kd', v', blockCount.toNat, c₂)

/-- One map entry per iteration: a `get_bytes` key (length pushed to the
key offsets, bytes to the key buffer) then the value (fueled). -/
def readMapItems : Nat → Nat → List Nat → List Nat → Decoder → List Nat →
    Except AErr (List Nat × List Nat × Decoder × List Nat)
  | 0, _, _, _, _, _ => .error .fuelErr
  | _fuel+1, 0, ko, kd, v, c => .ok (ko, kd, v, c)
  | fuel+1, n+1, ko, kd, v, c =>
    match getBytes c with
    | none => .error (.ioError "get_bytes")
    | some (kb, c₁) =>
      match decodeD fuel v c₁ with
      | .error e => .error e
      | .ok (v', c₂) => readMapItems fuel n (ko ++ [kb.length]) (kd ++ kb) v' c₂
end

mutual
/-- `Decoder::try_new` (fueled): build the builder tree for a resolved
type, wrapping in `Nullable` when the type carries a nullability bit. -/
def Decoder.tryNew : Nat → AvroDataType → Except AErr Decoder
  | 0, _ => .error .fuelErr
  | fuel+1, dt =>
    let base : Except AErr Decoder :=
      match dt.codec with
      | .null => .ok (.nullD 0)
      | .boolean => .ok (.boolean [])
      | .int32 => .ok (.int32 [])
      | .int64 => .ok (.int64 [])
      | .float32 => .ok (.float32 [])
      | .float64 => .ok (.float64 [])
      | .binary => .ok (.binary [] [])
      | .string => .ok (.stringD [] [])
      | .record avroFields =>
        match tryNewFields fuel avroFields with
        | .error e => .error e
        | .ok (arrowFields, decoders) => .ok (.record arrowFields decoders)
      | .enum keys _vals => .ok (.enum keys [])
      | .array item =>
        match Decoder.tryNew fuel item with
        | .error e => .error e
        | .ok itemDecoder =>
          match fieldWithName fuel item "item" with
          | none => .error .fuelErr
          | some (.mk n adt _ md) =>
            .ok (.list (.mk n adt true md) [] itemDecoder)
      | .map valueType =>
        match fieldWithName fuel valueType "value" with
        | none => .error .fuelErr
        | some (.mk n adt _ md) =>
          let valField := FieldA.mk n adt true md
          let mapField := FieldA.mk "entries"
            (.struct [.mk "key" .utf8 false [], valField]) false []
          match Decoder.tryNew fuel valueType with
          | .error e => .error e
          | .ok valDecoder => .ok (.mapD mapField [] [] [] valDecoder 0)
      | .fixed n => .ok (.fixed n [])
      | .decimal p s z =>
        match DecimalBuilder.new p s z with
        | .error e => .error e
        | .ok b => .ok (.decimal p s z b)
      | .uuid => .ok (.fixed 16 [])
      | .date32 => .ok (.date32 [])
      | .timeMillis => .ok (.timeMillis [])
      | .timeMicros => .ok (.timeMicros [])
      | .timestampMillis u => .ok (.timestampMillis u [])
      | .timestampMicros u => .ok (.timestampMicros u [])
      | .duration => .ok (.interval [])
    match base with
    | .error e => .error e
    | .ok decoder =>
      match dt.nullability with
      | some nb => .ok (.nullable nb [] decoder)
      | none => .ok decoder

/-- The record-field loop of `Decoder::try_new` (fueled): child decoder
plus the Arrow field of each Avro field, in declared order. -/
def tryNewFields : Nat → List AvroField →
    Except AErr (List FieldA × List Decoder)
  | 0, _ => .error .fuelErr
  | _fuel+1, [] => .ok ([], [])
  | fuel+1, f :: fs =>
    match Decoder.tryNew fuel f.data_type with
    | .error e => .error e
    | .ok d =>
      match avroFieldArrow fuel f with
      | none => .error .fuelErr
      | some fa =>
        match tryNewFields fuel fs with
        | .error e => .error e
        | .ok (rest₁, rest₂) => .ok (fa :: rest₁, d :: rest₂)
end

/-- `RecordDecoder`: the Arrow schema fields plus one decoder per
top-level field. -/
structure RecordDecoderS where
  schema : List FieldA
  fields : List Decoder

/-- `RecordDecoder::try_new`: requires the top-level decoder to be a
`Record`. -/
def RecordDecoderS.tryNew (fuel : Nat) (dt : AvroDataType) :
    Except AErr RecordDecoderS :=
  match Decoder.tryNew fuel dt with
  | .error e => .error e
  | .ok (.record fs encodings) => .ok ⟨fs, encodings⟩
  | .ok _ => .error (.parseError "Expected record")

/-- The `for _ in 0..count` row loop of `RecordDecoder::decode`
(structural on the row count, fueled per row). -/
def decodeRows (fuel : Nat) : Nat → List Decoder → List Nat →
    Except AErr (List Decoder × List Nat)
  | 0, ds, c => .ok (ds, c)
  | n+1, ds, c =>
    match decodeFields fuel ds c with
    | .error e => .error e
    | .ok (ds', c₁) => decodeRows fuel n ds' c₁

/-- `RecordDecoder::decode`: decode `count` rows from `buf`, returning the
new state and `cursor.position()` (bytes consumed). -/
def RecordDecoderS.decode (fuel : Nat) (rd : RecordDecoderS) (buf : List Nat)
    (count : Nat) : Except AErr (RecordDecoderS × Nat) :=
  match decodeRows fuel count rd.fields buf with
  | .error e => .error e
  | .ok (fields', rest) => .ok (⟨rd.schema, fields'⟩, buf.length - rest.length)

/-- The total row count across a sequence of `decode` calls, each given as
a row count and a wire buffer. -/
def totalRows (steps : List (Nat × List Nat)) : Nat :=
  (steps.map Prod.fst).sum

/-- A sequence of `RecordDecoder::decode` calls, threading the decoder
state. -/
def runDecodes (fuel : Nat) : RecordDecoderS → List (Nat × List Nat) →
    Except AErr RecordDecoderS
  | rd, [] => .ok rd
  | rd, (count, buf) :: rest =>
    match rd.decode fuel buf count with
    | .error e => .error e
    | .ok (rd', _) => runDecodes fuel rd' rest

/-! ## Flush (`record.rs` `Decoder::flush` and the Arrow constructors)

The produced Arrow arrays are abstracted to their lengths; each Arrow
constructor's length/consistency validation (and each `panic!` on
inconsistent inputs) is modelled as an explicit check yielding an error —
in either case no batch is produced.  The UTF-8 well-formedness check of
`StringArray` is not modelled (it never affects a length).  `flush`
returns the array length together with the reset builder. -/

/-- Null-mask length agreement (the `nulls.len() == len` validation every
Arrow constructor except `NullArray` and the `build_unchecked`-based
interval path performs). -/
def maskLenOk (m : Option (List Bool)) (n : Nat) : Bool :=
  match m with
  | none => true
  | some b => b.length == n

/-- `DictionaryArray::try_new` key validation: every *valid* key must
index into the dictionary values. -/
def enumKeysOk (idxs : List Int) (m : Option (List Bool)) (nsym : Nat) : Bool :=
  match m with
  | none => idxs.all fun i => decide (0 ≤ i ∧ i < (nsym : Int))
  | some mask =>
    (idxs.zip mask).all fun p => !p.2 || decide (0 ≤ p.1 ∧ p.1 < (nsym : Int))

/-- The `with_precision_and_scale` validation performed by
`DecimalBuilder::finish`. -/
def decimalFinishOk (p : Nat) (s : Option Nat) (b : DecimalBuilder) : Bool :=
  match b with
  | .dec128 _ => validPS DECIMAL128_MAX_PRECISION (p % 256) (i8OfNat (s.getD 0))
  | .dec256 _ => validPS DECIMAL256_MAX_PRECISION (p % 256) (i8OfNat (s.getD 0))

mutual
/-- `Decoder::flush` (fueled): produce the column length and the reset
builder, applying the optional null mask with the source's validation
behavior per variant. -/
def flushD : Nat → Decoder → Option (List Bool) → Except AErr (Nat × Decoder)
  | 0, _, _ => .error .fuelErr
  | _fuel+1, .nullD n, _ => .ok (n, .nullD 0)
  | _fuel+1, .boolean v, nulls =>
    if maskLenOk nulls v.length then .ok (v.length, .boolean [])
    else .error (.parseError "BooleanArray nulls length mismatch")
  | _fuel+1, .int32 v, nulls =>
    if maskLenOk nulls v.length then .ok (v.length, .int32 [])
    else .error (.parseError "PrimitiveArray nulls length mismatch")
  | _fuel+1, .int64 v, nulls =>
    if maskLenOk nulls v.length then .ok (v.length, .int64 [])
    else .error (.parseError "PrimitiveArray nulls length mismatch")
  | _fuel+1, .float32 v, nulls =>
    if maskLenOk nulls v.length then .ok (v.length, .float32 [])
    else .error (.parseError "PrimitiveArray nulls length mismatch")
  | _fuel+1, .float64 v, nulls =>
    if maskLenOk nulls v.length then .ok (v.length, .float64 [])
    else .error (.parseError "PrimitiveArray nulls length mismatch")
  | _fuel+1, .binary off d, nulls =>
    if maskLenOk nulls off.length ∧ off.sum ≤ d.length then
      .ok (off.length, .binary [] [])
    else .error (.parseError "BinaryArray validation failed")
  | _fuel+1, .stringD off d, nulls =>
    if maskLenOk nulls off.length ∧ off.sum ≤ d.length then
      .ok (off.length, .stringD [] [])
    else .error (.parseError "StringArray validation failed")
  | fuel+1, .record fs cs, nulls =>
    match flushFields fuel cs nulls with
    | .error e => .error e
    | .ok (lens, cs') =>
      match lens with
      | [] => .error (.parseError "StructArray requires at least one field")
      | l :: rest =>
        if rest.all (fun x => x == l) ∧ maskLenOk nulls l then
          .ok (l, .record fs cs')
        else .error (.parseError "StructArray length mismatch")
  | _fuel+1, .enum syms idxs, nulls =>
    if maskLenOk nulls idxs.length ∧ enumKeysOk idxs nulls syms.length then
      .ok (idxs.length, .enum syms [])
    else .error (.parseError "DictionaryArray validation failed")
  | fuel+1, .list f off child, nulls =>
    match flushD fuel child none with
    | .error e => .error e
    | .ok (childLen, child') =>
      if off.sum ≤ childLen ∧ maskLenOk nulls off.length then
        .ok (off.length, .list f [] child')
      else .error (.parseError "ListArray validation failed")
  | fuel+1, .mapD f ko mo kd v _cnt, nulls =>
    match flushD fuel v none with
    | .error e => .error e
    | .ok (valLen, v') =>
      if ko.sum ≤ kd.length ∧ ko.length = valLen ∧ mo.sum ≤ ko.length ∧
          maskLenOk nulls mo.length then
        .ok (mo.length, .mapD f [] [] [] v' 0)
      else .error (.parseError "MapArray validation failed")
  | fuel+1, .nullable nb ns child, _nulls =>
    match flushD fuel child (some ns) with
    | .error e => .error e
    | .ok (len, child') => .ok (len, .nullable nb [] child')
  | _fuel+1, .fixed sz buf, nulls =>
    if 0 < sz then
      if buf.length % sz.toNat = 0 ∧ maskLenOk nulls (buf.length / sz.toNat) then
        .ok (buf.length / sz.toNat, .fixed sz [])
      else .error (.parseError "FixedSizeBinaryArray validation failed")
    else .error (.parseError "FixedSizeBinaryArray size must be positive")
  | _fuel+1, .decimal p s z b, nulls =>
    match DecimalBuilder.new p s z with
    | .error e => .error e
    | .ok newB =>
      if maskLenOk nulls b.vals.length ∧ decimalFinishOk p s b then
        .ok (b.vals.length, .decimal p s z newB)
      else .error (.parseError "Decimal flush validation failed")
  | _fuel+1, .date32 v, nulls =>
    if maskLenOk nulls v.length then .ok (v.length, .date32 [])
    else .error (.parseError "PrimitiveArray nulls length mismatch")
  | _fuel+1, .timeMillis v, nulls =>
    if maskLenOk nulls v.length then .ok (v.length, .timeMillis [])
    else .error (.parseError "PrimitiveArray nulls length mismatch")
  | _fuel+1, .timeMicros v, nulls =>
    if maskLenOk nulls v.length then .ok (v.length, .timeMicros [])
    else .error (.parseError "PrimitiveArray nulls length mismatch")
  | _fuel+1, .timestampMillis u v, nulls =>
    if maskLenOk nulls v.length then .ok (v.length, .timestampMillis u [])
    else .error (.parseError "PrimitiveArray nulls length mismatch")
  | _fuel+1, .timestampMicros u v, nulls =>
    if maskLenOk nulls v.length then .ok (v.length, .timestampMicros u [])
    else .error (.parseError "PrimitiveArray nulls length mismatch")
  | _fuel+1, .interval v, _nulls => .ok (v.length, .interval [])

/-- The per-column flush loop (fueled). -/
def flushFields : Nat → List Decoder → Option (List Bool) →
    Except AErr (List Nat × List Decoder)
  | 0, _, _ => .error .fuelErr
  | _fuel+1, [], _ => .ok ([], [])
  | fuel+1, d :: ds, nulls =>
    match flushD fuel d nulls with
    | .error e => .error e
    | .ok (len, d') =>
      match flushFields fuel ds nulls with
      | .error e => .error e
      | .ok (lens, ds') => .ok (len :: lens, d' :: ds')
end

/-- `RecordDecoder::flush`: flush every column with no outer mask and
assemble a `RecordBatch` (which validates a nonempty column list of equal
lengths against the schema). -/
def RecordDecoderS.flush (fuel : Nat) (rd : RecordDecoderS) :
    Except AErr (List Nat × RecordDecoderS) :=
  match flushFields fuel rd.fields none with
  | .error e => .error e
  | .ok (lens, fields') =>
    match lens with
    | [] => .error (.parseError "RecordBatch requires at least one column")
    | l :: rest =>
      if rd.schema.length = lens.length ∧ rest.all (fun x => x == l) then
        .ok (lens, ⟨rd.schema, fields'⟩)
      else .error (.parseError "RecordBatch column mismatch")

/-! ## Claim C3: the Nullable decode arm -/

/-- C3: Decoding a `Nullable` column reads a branch index; the
null-position branch (0 under `NullFirst`, 1 under `NullSecond`) marks the
row invalid and appends a null to the child, the present branch (1 under
`NullFirst`, 0 under `NullSecond`) marks it valid and decodes the child,
and any other index is a parse error; hence the validity bit appended for
the row is `true` exactly when the branch read equals the present-branch
index. -/
theorem nullable_branch_decode (fuel : Nat) (nb : Nullability)
    (ns : List Bool) (child : Decoder) (c c₁ : List Nat) (branch : Int)
    (hint : getInt c = some (branch, c₁)) :
    (branch = (match nb with | .nullFirst => 0 | .nullSecond => 1) →
      decodeD (fuel + 1) (.nullable nb ns child) c =
        (match appendNull fuel child with
         | none => .error .fuelErr
         | some child' => .ok (.nullable nb (ns ++ [false]) child', c₁))) ∧
    (branch = (match nb with | .nullFirst => 1 | .nullSecond => 0) →
      decodeD (fuel + 1) (.nullable nb ns child) c =
        (match decodeD fuel child c₁ with
         | .error e => .error e
         | .ok (child', c₂) => .ok (.nullable nb (ns ++ [true]) child', c₂))) ∧
    (branch ≠ 0 → branch ≠ 1 →
      ∃ msg, decodeD (fuel + 1) (.nullable nb ns child) c =
        .error (.parseError msg)) ∧
    (∀ d' c', decodeD (fuel + 1) (.nullable nb ns child) c = .ok (d', c') →
      ∃ child' vbit, d' = .nullable nb (ns ++ [vbit]) child' ∧
        (vbit = true ↔
          branch = (match nb with | .nullFirst => 1 | .nullSecond => 0))) := by
  cases nb with
  | nullFirst =>
    refine ⟨?_, ?_, ?_, ?_⟩
    · intro hb
      subst hb
      simp only [decodeD, hint]
      norm_num
    · intro hb
      subst hb
      simp only [decodeD, hint]
      norm_num
    · intro h0 h1
      refine ⟨"Unsupported union branch index for Nullable (NullFirst)", ?_⟩
      simp only [decodeD, hint, if_neg h0, if_neg h1]
    · intro d' c' hok
      simp only [decodeD, hint] at hok
      by_cases h0 : branch = 0
      · rw [if_pos h0] at hok
        cases han : appendNull fuel child with
        | none => rw [han] at hok; cases hok
        | some child' =>
          rw [han] at hok
          cases hok
          exact ⟨child', false, rfl, by simp; omega⟩
      · rw [if_neg h0] at hok
        by_cases h1 : branch = 1
        · rw [if_pos h1] at hok
          cases hdc : decodeD fuel child c₁ with
          | error e => rw [hdc] at hok; cases hok
          | ok p =>
            rw [hdc] at hok
            cases hok
            exact ⟨p.1, true, rfl, by simp [h1]⟩
        · rw [if_neg h1] at hok
          cases hok
  | nullSecond =>
    refine ⟨?_, ?_, ?_, ?_⟩
    · intro hb
      subst hb
      simp only [decodeD, hint]
      norm_num
    · intro hb
      subst hb
      simp only [decodeD, hint]
      norm_num
    · intro h0 h1
      refine ⟨"Unsupported union branch index for Nullable (NullSecond)", ?_⟩
      simp only [decodeD, hint, if_neg h0, if_neg h1]
    · intro d' c' hok
      simp only [decodeD, hint] at hok
      by_cases h0 : branch = 0
      · rw [if_pos h0] at hok
        cases hdc : decodeD fuel child c₁ with
        | error e => rw [hdc] at hok; cases hok
        | ok p =>
          rw [hdc] at hok
          cases hok
          exact ⟨p.1, true, rfl, by simp [h0]⟩
      · rw [if_neg h0] at hok
        by_cases h1 : branch = 1
        · rw [if_pos h1] at hok
          cases han : appendNull fuel child with
          | none => rw [han] at hok; cases hok
          | some child' =>
            rw [han] at hok
            cases hok
            exact ⟨child', false, rfl, by simp; omega⟩
        · rw [if_neg h1] at hok
          cases hok

/-- Witness for C3: a `NullSecond` nullable `Int32` with branch 0
(present) decodes the child value 1; branch 1 would append a null. -/
theorem nullable_branch_decode_witness :
    getInt [0, 2] = some (0, [2]) ∧
    decodeD 3 (.nullable .nullSecond [] (.int32 [])) [0, 2] =
      .ok (.nullable .nullSecond [true] (.int32 [1]), []) := by
  refine ⟨rfl, ?_⟩
  have h := (nullable_branch_decode 2 .nullSecond [] (.int32 [])
    [0, 2] [2] 0 rfl).2.1 rfl
  rw [h]
  rfl

/-! ## Claim C9: Duration decoding -/

/-- C9 counterexample: on the claim's own wire bytes
`FF FF FF FF 0A 00 00 00 0F 27 00 00`, the stored months value is `-1`
(the bytes are read as a *signed* `i32`), not the unsigned 32-bit value
`4294967295` the claim's "little-endian unsigned 32-bit integers" wording
dictates. -/
theorem interval_decode_signed_cex :
    decodeD 2 (.interval [])
      [0xFF, 0xFF, 0xFF, 0xFF, 0x0A, 0x00, 0x00, 0x00,
       0x0F, 0x27, 0x00, 0x00] =
      .ok (.interval [(-1, 10, 9999000000)], []) ∧
    (-1 : Int) ≠ (4294967295 : Int) :=
  ⟨rfl, by decide⟩

/-- C9 (amended): decoding one Duration row consumes exactly 12 fixed
bytes, read as three consecutive little-endian **signed** 32-bit integers
(months, days, milliseconds), and stores months and days as read with
nanoseconds equal to milliseconds times 1,000,000 (exact in 64 bits since
`|ms| ≤ 2³¹`). -/
theorem interval_decode (fuel : Nat) (v : List (Int × Int × Int))
    (c : List Nat) (h12 : 12 ≤ c.length) :
    decodeD (fuel + 1) (.interval v) c =
      .ok (.interval (v ++ [(i32Le (c.take 4), i32Le ((c.drop 4).take 4),
        i32Le ((c.drop 8).take 4) * 1000000)]), c.drop 12) := by
  have hfx : getFixed 12 c = some (c.take 12, c.drop 12) := by
    simp [getFixed, h12]
  simp only [decodeD, hfx]
  have h1 : (c.take 12).take 4 = c.take 4 := by
    rw [List.take_take]; norm_num
  have h2 : ((c.take 12).drop 4).take 4 = (c.drop 4).take 4 := by
    rw [List.drop_take, List.take_take]; norm_num
  have h3 : ((c.take 12).drop 8).take 4 = (c.drop 8).take 4 := by
    rw [List.drop_take, List.take_take]; norm_num
  rw [h1, h2, h3]

/-- Witness for C9 at the spec's first Duration row:
`01 00 00 00 02 00 00 00 64 00 00 00` → months 1, days 2, nanos
100,000,000. -/
theorem interval_decode_witness :
    decodeD 5 (.interval [])
      [0x01, 0x00, 0x00, 0x00, 0x02, 0x00, 0x00, 0x00,
       0x64, 0x00, 0x00, 0x00] =
      .ok (.interval [(1, 2, 100000000)], []) := by
  have h := interval_decode 4 []
    [0x01, 0x00, 0x00, 0x00, 0x02, 0x00, 0x00, 0x00,
     0x64, 0x00, 0x00, 0x00] (by decide)
  rw [h]
  rfl

/-! ## Claim C10: the map decoder stops after the first block -/

/-- C10: after a positive first block count, `read_map_blocks` returns the
cursor exactly where the entry loop left it — the terminating zero block
count that follows on the wire is never consumed; with a non-positive
first block count the cursor stops right after that count. -/
theorem map_first_block_cursor (fuel : Nat) (ko kd : List Nat) (v : Decoder)
    (c c₁ : List Nat) (bc : Int) (hlong : getLong c = some (bc, c₁)) :
    (bc ≤ 0 → readMapBlocks (fuel + 1) ko kd v c = .ok (ko, kd, v, 0, c₁)) ∧
    (0 < bc → readMapBlocks (fuel + 1) ko kd v c =
      (match readMapItems fuel bc.toNat ko kd v c₁ with
       | .error e => .error e
       | .ok (ko', kd', v', c₂) => .ok (ko', kd', v', bc.toNat, c₂))) := by
  constructor
  · intro hle
    simp only [readMapBlocks, hlong, if_pos hle]
  · intro hpos
    simp only [readMapBlocks, hlong, if_neg (by omega : ¬ bc ≤ 0)]

/-- Witness for C10: a one-entry map wire followed by its terminating zero
block count; the decoder's cursor ends on the untouched zero byte. -/
theorem map_first_block_cursor_witness :
    getLong [2, 2, 107, 2, 118, 0] = some (1, [2, 107, 2, 118, 0]) ∧
    readMapBlocks 5 [] [] (.stringD [] []) [2, 2, 107, 2, 118, 0] =
      .ok ([1], [107], .stringD [1] [118], 1, [0]) := by
  refine ⟨rfl, ?_⟩
  have h := (map_first_block_cursor 4 [] [] (.stringD [] [])
    [2, 2, 107, 2, 118, 0] [2, 107, 2, 118, 0] 1 rfl).2 (by decide)
  rw [h]
  rfl

/-! ## Claim C5: append-null and the Nullable builder -/

/-- C5 failing behavior: `append_null` on a `Nullable` builder is a no-op
(its null mask does not grow and its child is untouched), so it does not
increase the builder's logical length by one; consequently a nullable
record containing a nullable field decodes a null row successfully but can
no longer flush — the struct assembly rejects the misaligned child. -/
theorem append_null_nullable_noop :
    (∀ (fuel : Nat) (nb : Nullability) (ns : List Bool) (child : Decoder),
      appendNull (fuel + 1) (.nullable nb ns child) =
        some (.nullable nb ns child)) ∧
    decodeD 5
      (.nullable .nullFirst []
        (.record [.mk "x" .int32 true []]
          [.nullable .nullFirst [] (.int32 [])])) [0] =
      .ok (.nullable .nullFirst [false]
        (.record [.mk "x" .int32 true []]
          [.nullable .nullFirst [] (.int32 [])]), []) ∧
    flushD 6
      (.nullable .nullFirst [false]
        (.record [.mk "x" .int32 true []]
          [.nullable .nullFirst [] (.int32 [])])) none =
      .error (.parseError "StructArray length mismatch") :=
  ⟨fun _ _ _ _ => rfl, rfl, rfl⟩

/-! ## Claim C6: the map offset push -/

/-- `OffsetBufferBuilder::finish`: the cumulative offsets of the pushed
lengths. -/
def finishOffsets (lens : List Nat) : List Nat :=
  lens.scanl (· + ·) 0

/-- A concrete `map<string, string>` decoder (entries field as built by
`Decoder::try_new`). -/
def mapStringDecoder : Decoder :=
  .mapD
    (.mk "entries"
      (.struct [.mk "key" .utf8 false [], .mk "value" .utf8 true []])
      false [])
    [] [] [] (.stringD [] []) 0

/-- C6 failing behavior: decoding two map rows — one entry, then an empty
block — pushes the *cumulative* entry count into the offset builder as a
length increment both times (`push_length(entry_count)`), so the finished
offsets are `[0, 1, 2]` although only one entry was ever decoded and the
claim's "cumulative entry count pushed as the map offset" dictates
`[0, 1, 1]`; the subsequent flush rejects the offsets. -/
theorem map_offset_push_bug :
    decodeD 8 mapStringDecoder [2, 2, 107, 2, 118] =
      .ok (.mapD
        (.mk "entries"
          (.struct [.mk "key" .utf8 false [], .mk "value" .utf8 true []])
          false [])
        [1] [1] [107] (.stringD [1] [118]) 1, []) ∧
    decodeD 8
      (.mapD
        (.mk "entries"
          (.struct [.mk "key" .utf8 false [], .mk "value" .utf8 true []])
          false [])
        [1] [1] [107] (.stringD [1] [118]) 1) [0] =
      .ok (.mapD
        (.mk "entries"
          (.struct [.mk "key" .utf8 false [], .mk "value" .utf8 true []])
          false [])
        [1] [1, 1] [107] (.stringD [1] [118]) 1, []) ∧
    finishOffsets [1, 1] = [0, 1, 2] ∧
    [0, 1, 2] ≠ [0, 1, 1] ∧
    flushD 3
      (.mapD
        (.mk "entries"
          (.struct [.mk "key" .utf8 false [], .mk "value" .utf8 true []])
          false [])
        [1] [1, 1] [107] (.stringD [1] [118]) 1) none =
      .error (.parseError "MapArray validation failed") :=
  ⟨rfl, rfl, rfl, by decide, rfl⟩

/-! ## Claim C1: flushed column lengths equal the decoded row count

The proof tracks three invariants over decoder states:

* `SelfAdv d k` — the parts of `d` whose flush length is *not* validated
  against the supplied null mask (`NullArray` ignores it, the interval
  path attaches it `build_unchecked`, `Nullable` replaces it by its own
  mask) have advanced exactly `k` times;
* `InvTop d n` — `d` is a top-level column (or a record child thereof,
  which is only ever advanced by `decode`, never by `append_null`) that
  has decoded exactly `n` rows;
* `WfD d` — structural well-formedness `Decoder::try_new` guarantees: the
  child of a `Nullable` is not itself `Nullable`, and every `Fixed` size
  is in `i32` range (the source stores it as an `i32`). -/

mutual
/-- The unvalidated flush lengths of `d` have advanced `k` times. -/
inductive SelfAdv : Decoder → Nat → Prop where
  | nullD (n : Nat) : SelfAdv (.nullD n) n
  | interval (v : List (Int × Int × Int)) (n : Nat) (h : v.length = n) :
      SelfAdv (.interval v) n
  | nullable (nb : Nullability) (ns : List Bool) (ch : Decoder) (n : Nat)
      (h1 : ns.length = n) (h2 : SelfAdv ch n) : SelfAdv (.nullable nb ns ch) n
  | boolean (v : List Bool) (n : Nat) : SelfAdv (.boolean v) n
  | int32 (v : List Int) (n : Nat) : SelfAdv (.int32 v) n
  | int64 (v : List Int) (n : Nat) : SelfAdv (.int64 v) n
  | float32 (v : List Nat) (n : Nat) : SelfAdv (.float32 v) n
  | float64 (v : List Nat) (n : Nat) : SelfAdv (.float64 v) n
  | binary (off d : List Nat) (n : Nat) : SelfAdv (.binary off d) n
  | stringD (off d : List Nat) (n : Nat) : SelfAdv (.stringD off d) n
  | record (fs : List FieldA) (cs : List Decoder) (n : Nat) :
      SelfAdv (.record fs cs) n
  | enum (s : List String) (idx : List Int) (n : Nat) : SelfAdv (.enum s idx) n
  | list (f : FieldA) (off : List Nat) (c : Decoder) (n : Nat) :
      SelfAdv (.list f off c) n
  | mapD (f : FieldA) (ko mo kd : List Nat) (v : Decoder) (cnt : Nat) (n : Nat) :
      SelfAdv (.mapD f ko mo kd v cnt) n
  | fixed (sz : Int) (buf : List Nat) (n : Nat) : SelfAdv (.fixed sz buf) n
  | decimal (p : Nat) (s z : Option Nat) (b : DecimalBuilder) (n : Nat) :
      SelfAdv (.decimal p s z b) n
  | date32 (v : List Int) (n : Nat) : SelfAdv (.date32 v) n
  | timeMillis (v : List Int) (n : Nat) : SelfAdv (.timeMillis v) n
  | timeMicros (v : List Int) (n : Nat) : SelfAdv (.timeMicros v) n
  | timestampMillis (u : Bool) (v : List Int) (n : Nat) :
      SelfAdv (.timestampMillis u v) n
  | timestampMicros (u : Bool) (v : List Int) (n : Nat) :
      SelfAdv (.timestampMicros u v) n
end

/-- `d` holds exactly `n` decoded rows along every path reachable only by
`decode` (records recurse; array/map children are per-item, not per-row,
and are not constrained; below a `Nullable` only `SelfAdv` is needed). -/
inductive InvTop : Decoder → Nat → Prop where
  | nullD (n : Nat) : InvTop (.nullD n) n
  | boolean (v : List Bool) (n : Nat) (h : v.length = n) : InvTop (.boolean v) n
  | int32 (v : List Int) (n : Nat) (h : v.length = n) : InvTop (.int32 v) n
  | int64 (v : List Int) (n : Nat) (h : v.length = n) : InvTop (.int64 v) n
  | float32 (v : List Nat) (n : Nat) (h : v.length = n) : InvTop (.float32 v) n
  | float64 (v : List Nat) (n : Nat) (h : v.length = n) : InvTop (.float64 v) n
  | binary (off d : List Nat) (n : Nat) (h : off.length = n) :
      InvTop (.binary off d) n
  | stringD (off d : List Nat) (n : Nat) (h : off.length = n) :
      InvTop (.stringD off d) n
  | record (fs : List FieldA) (cs : List Decoder) (n : Nat)
      (h : ∀ c ∈ cs, InvTop c n) : InvTop (.record fs cs) n
  | enum (s : List String) (idx : List Int) (n : Nat) (h : idx.length = n) :
      InvTop (.enum s idx) n
  | list (f : FieldA) (off : List Nat) (c : Decoder) (n : Nat)
      (h : off.length = n) : InvTop (.list f off c) n
  | mapD (f : FieldA) (ko mo kd : List Nat) (v : Decoder) (cnt : Nat) (n : Nat)
      (h : mo.length = n) : InvTop (.mapD f ko mo kd v cnt) n
  | nullable (nb : Nullability) (ns : List Bool) (ch : Decoder) (n : Nat)
      (h1 : ns.length = n) (h2 : SelfAdv ch n) : InvTop (.nullable nb ns ch) n
  | fixed (sz : Int) (buf : List Nat) (n : Nat)
      (h : buf.length = n * usizeOfInt sz) : InvTop (.fixed sz buf) n
  | decimal (p : Nat) (s z : Option Nat) (b : DecimalBuilder) (n : Nat)
      (h : b.vals.length = n) : InvTop (.decimal p s z b) n
  | date32 (v : List Int) (n : Nat) (h : v.length = n) : InvTop (.date32 v) n
  | timeMillis (v : List Int) (n : Nat) (h : v.length = n) :
      InvTop (.timeMillis v) n
  | timeMicros (v : List Int) (n : Nat) (h : v.length = n) :
      InvTop (.timeMicros v) n
  | timestampMillis (u : Bool) (v : List Int) (n : Nat) (h : v.length = n) :
      InvTop (.timestampMillis u v) n
  | timestampMicros (u : Bool) (v : List Int) (n : Nat) (h : v.length = n) :
      InvTop (.timestampMicros u v) n
  | interval (v : List (Int × Int × Int)) (n : Nat) (h : v.length = n) :
      InvTop (.interval v) n

/-- Structural well-formedness established by `Decoder::try_new`. -/
inductive WfD : Decoder → Prop where
  | nullD (n : Nat) : WfD (.nullD n)
  | boolean (v : List Bool) : WfD (.boolean v)
  | int32 (v : List Int) : WfD (.int32 v)
  | int64 (v : List Int) : WfD (.int64 v)
  | float32 (v : List Nat) : WfD (.float32 v)
  | float64 (v : List Nat) : WfD (.float64 v)
  | binary (off d : List Nat) : WfD (.binary off d)
  | stringD (off d : List Nat) : WfD (.stringD off d)
  | record (fs : List FieldA) (cs : List Decoder) (h : ∀ c ∈ cs, WfD c) :
      WfD (.record fs cs)
  | enum (s : List String) (idx : List Int) : WfD (.enum s idx)
  | list (f : FieldA) (off : List Nat) (c : Decoder) (h : WfD c) :
      WfD (.list f off c)
  | mapD (f : FieldA) (ko mo kd : List Nat) (v : Decoder) (cnt : Nat)
      (h : WfD v) : WfD (.mapD f ko mo kd v cnt)
  | nullable (nb : Nullability) (ns : List Bool) (ch : Decoder)
      (h : WfD ch) (hnn : ch.is_nullable = false) : WfD (.nullable nb ns ch)
  | fixed (sz : Int) (buf : List Nat) (h1 : -(2 ^ 31) ≤ sz) (h2 : sz < 2 ^ 31) :
      WfD (.fixed sz buf)
  | decimal (p : Nat) (s z : Option Nat) (b : DecimalBuilder) :
      WfD (.decimal p s z b)
  | date32 (v : List Int) : WfD (.date32 v)
  | timeMillis (v : List Int) : WfD (.timeMillis v)
  | timeMicros (v : List Int) : WfD (.timeMicros v)
  | timestampMillis (u : Bool) (v : List Int) : WfD (.timestampMillis u v)
  | timestampMicros (u : Bool) (v : List Int) : WfD (.timestampMicros u v)
  | interval (v : List (Int × Int × Int)) : WfD (.interval v)

/-- Well-formedness of a resolved type: every `Fixed` size fits in `i32`
(in the source the field *is* an `i32`; the embedding widens it to `Int`
and recovers the range here). -/
inductive WfC : Codec → Prop where
  | null : WfC .null
  | boolean : WfC .boolean
  | int32 : WfC .int32
  | int64 : WfC .int64
  | float32 : WfC .float32
  | float64 : WfC .float64
  | binary : WfC .binary
  | string : WfC .string
  | record (fs : List AvroField) (h : ∀ f ∈ fs, WfC f.data_type.codec) :
      WfC (.record fs)
  | enum (s : List String) (d : List Int) : WfC (.enum s d)
  | array (item : AvroDataType) (h : WfC item.codec) : WfC (.array item)
  | map (v : AvroDataType) (h : WfC v.codec) : WfC (.map v)
  | fixed (sz : Int) (h1 : -(2 ^ 31) ≤ sz) (h2 : sz < 2 ^ 31) : WfC (.fixed sz)
  | decimal (p : Nat) (s z : Option Nat) : WfC (.decimal p s z)
  | uuid : WfC .uuid
  | date32 : WfC .date32
  | timeMillis : WfC .timeMillis
  | timeMicros : WfC .timeMicros
  | timestampMillis (u : Bool) : WfC (.timestampMillis u)
  | timestampMicros (u : Bool) : WfC (.timestampMicros u)
  | duration : WfC .duration

theorem getFixed_some (n : Nat) (c bs c' : List Nat)
    (h : getFixed n c = some (bs, c')) :
    bs = c.take n ∧ c' = c.drop n ∧ bs.length = n := by
  simp only [getFixed] at h
  split at h
  · cases h
    refine ⟨rfl, rfl, ?_⟩
    simp only [List.length_take]
    omega
  · cases h

theorem appendBytes_length (b b' : DecimalBuilder) (raw : List Nat)
    (h : b.appendBytes raw = .ok b') :
    b'.vals.length = b.vals.length + 1 := by
  cases b with
  | dec128 vs =>
    simp only [DecimalBuilder.appendBytes] at h
    cases hx : sign_extend_to_16 raw with
    | error e => rw [hx] at h; cases h
    | ok padded =>
      rw [hx] at h
      cases h
      simp [DecimalBuilder.vals]
  | dec256 vs =>
    simp only [DecimalBuilder.appendBytes] at h
    cases hx : sign_extend_to_32 raw with
    | error e => rw [hx] at h; cases h
    | ok padded =>
      rw [hx] at h
      cases h
      simp [DecimalBuilder.vals]

theorem appendNullB_length (b : DecimalBuilder) :
    b.appendNullB.vals.length = b.vals.length + 1 := by
  cases b <;> simp [DecimalBuilder.appendNullB, DecimalBuilder.vals]

/-- Preservation of the C1 invariants by one decode step, proved for all
the mutually recursive decode functions simultaneously by induction on
fuel. -/
theorem decode_preserves : ∀ fuel : Nat,
    (∀ d c d' c', decodeD fuel d c = .ok (d', c') → WfD d →
      WfD d' ∧ d'.is_nullable = d.is_nullable ∧
      (∀ n, InvTop d n → InvTop d' (n + 1)) ∧
      (∀ k, SelfAdv d k → SelfAdv d' (k + 1))) ∧
    (∀ ds c ds' c', decodeFields fuel ds c = .ok (ds', c') →
      (∀ d ∈ ds, WfD d) →
      (∀ d' ∈ ds', WfD d') ∧
      (∀ n, (∀ d ∈ ds, InvTop d n) → ∀ d' ∈ ds', InvTop d' (n + 1))) ∧
    (∀ ch c ch' t c', readArrayBlocks fuel ch c = .ok (ch', t, c') → WfD ch →
      WfD ch' ∧ ch'.is_nullable = ch.is_nullable) ∧
    (∀ n ch c ch' c', readItems fuel n ch c = .ok (ch', c') → WfD ch →
      WfD ch' ∧ ch'.is_nullable = ch.is_nullable) ∧
    (∀ ko kd v c ko' kd' v' m c',
      readMapBlocks fuel ko kd v c = .ok (ko', kd', v', m, c') → WfD v →
      WfD v' ∧ v'.is_nullable = v.is_nullable) ∧
    (∀ n ko kd v c ko' kd' v' c',
      readMapItems fuel n ko kd v c = .ok (ko', kd', v', c') → WfD v →
      WfD v' ∧ v'.is_nullable = v.is_nullable) ∧
    (∀ d d', appendNull fuel d = some d' → WfD d →
      WfD d' ∧ d'.is_nullable = d.is_nullable ∧
      (d.is_nullable = false → ∀ k, SelfAdv d k → SelfAdv d' (k + 1))) ∧
    (∀ ds ds', appendNullList fuel ds = some ds' → (∀ d ∈ ds, WfD d) →
      ∀ d' ∈ ds', WfD d') := by
  intro fuel
  induction fuel with
  | zero =>
    refine ⟨?_, ?_, ?_, ?_, ?_, ?_, ?_, ?_⟩ <;> intros <;>
      simp_all [decodeD, decodeFields, readArrayBlocks, readItems,
        readMapBlocks, readMapItems, appendNull, appendNullList]
  | succ f ih =>
    obtain ⟨ihD, ihF, ihRAB, ihRI, ihRMB, ihRMI, ihA, ihAL⟩ := ih
    refine ⟨?_, ?_, ?_, ?_, ?_, ?_, ?_, ?_⟩
    -- decodeD
    · intro d c d' c' hdec hwf
      cases d with
      | nullD n0 =>
        simp only [decodeD] at hdec
        cases hdec
        exact ⟨.nullD _, rfl, fun n hi => by cases hi; exact .nullD _,
          fun k hs => by cases hs; exact .nullD _⟩
      | boolean v =>
        simp only [decodeD] at hdec
        cases hg : getBool c with
        | none => rw [hg] at hdec; cases hdec
        | some p =>
          obtain ⟨b, c₁⟩ := p
          rw [hg] at hdec
          cases hdec
          refine ⟨.boolean _, rfl, ?_, fun k hs => by cases hs; exact .boolean _ _⟩
          intro n hi
          cases hi with
          | boolean _ _ h => exact .boolean _ _ (by simp [h])
      | int32 v =>
        simp only [decodeD] at hdec
        cases hg : getInt c with
        | none => rw [hg] at hdec; cases hdec
        | some p =>
          obtain ⟨i, c₁⟩ := p
          rw [hg] at hdec
          cases hdec
          refine ⟨.int32 _, rfl, ?_, fun k hs => by cases hs; exact .int32 _ _⟩
          intro n hi
          cases hi with
          | int32 _ _ h => exact .int32 _ _ (by simp [h])
      | int64 v =>
        simp only [decodeD] at hdec
        cases hg : getLong c with
        | none => rw [hg] at hdec; cases hdec
        | some p =>
          obtain ⟨i, c₁⟩ := p
          rw [hg] at hdec
          cases hdec
          refine ⟨.int64 _, rfl, ?_, fun k hs => by cases hs; exact .int64 _ _⟩
          intro n hi
          cases hi with
          | int64 _ _ h => exact .int64 _ _ (by simp [h])
      | float32 v =>
        simp only [decodeD] at hdec
        cases hg : getFloat c with
        | none => rw [hg] at hdec; cases hdec
        | some p =>
          obtain ⟨x, c₁⟩ := p
          rw [hg] at hdec
          cases hdec
          refine ⟨.float32 _, rfl, ?_, fun k hs => by cases hs; exact .float32 _ _⟩
          intro n hi
          cases hi with
          | float32 _ _ h => exact .float32 _ _ (by simp [h])
      | float64 v =>
        simp only [decodeD] at hdec
        cases hg : getDouble c with
        | none => rw [hg] at hdec; cases hdec
        | some p =>
          obtain ⟨x, c₁⟩ := p
          rw [hg] at hdec
          cases hdec
          refine ⟨.float64 _, rfl, ?_, fun k hs => by cases hs; exact .float64 _ _⟩
          intro n hi
          cases hi with
          | float64 _ _ h => exact .float64 _ _ (by simp [h])
      | binary off dta =>
        simp only [decodeD] at hdec
        cases hg : getBytes c with
        | none => rw [hg] at hdec; cases hdec
        | some p =>
          obtain ⟨bs, c₁⟩ := p
          rw [hg] at hdec
          cases hdec
          refine ⟨.binary _ _, rfl, ?_, fun k hs => by cases hs; exact .binary _ _ _⟩
          intro n hi
          cases hi with
          | binary _ _ _ h => exact .binary _ _ _ (by simp [h])
      | stringD off dta =>
        simp only [decodeD] at hdec
        cases hg : getBytes c with
        | none => rw [hg] at hdec; cases hdec
        | some p =>
          obtain ⟨bs, c₁⟩ := p
          rw [hg] at hdec
          cases hdec
          refine ⟨.stringD _ _, rfl, ?_, fun k hs => by cases hs; exact .stringD _ _ _⟩
          intro n hi
          cases hi with
          | stringD _ _ _ h => exact .stringD _ _ _ (by simp [h])
      | record fs cs =>
        simp only [decodeD] at hdec
        cases hdf : decodeFields f cs c with
        | error e => rw [hdf] at hdec; cases hdec
        | ok p =>
          obtain ⟨cs', c₁⟩ := p
          rw [hdf] at hdec
          cases hdec
          have hwfcs : ∀ x ∈ cs, WfD x := by
            cases hwf with | record _ _ h => exact h
          obtain ⟨hw', hi'⟩ := ihF cs c cs' c' hdf hwfcs
          refine ⟨.record _ _ hw', rfl, ?_, fun k hs => .record _ _ _⟩
          intro n hi
          cases hi with
          | record _ _ _ h => exact .record _ _ _ (hi' n h)
      | enum s idx =>
        simp only [decodeD] at hdec
        cases hg : getInt c with
        | none => rw [hg] at hdec; cases hdec
        | some p =>
          obtain ⟨i, c₁⟩ := p
          rw [hg] at hdec
          cases hdec
          refine ⟨.enum _ _, rfl, ?_, fun k hs => by cases hs; exact .enum _ _ _⟩
          intro n hi
          cases hi with
          | enum _ _ _ h => exact .enum _ _ _ (by simp [h])
      | list fl off child =>
        simp only [decodeD] at hdec
        cases hrab : readArrayBlocks f child c with
        | error e => rw [hrab] at hdec; cases hdec
        | ok p =>
          obtain ⟨child', total, c₁⟩ := p
          rw [hrab] at hdec
          cases hdec
          have hwfc : WfD child := by cases hwf with | list _ _ _ h => exact h
          obtain ⟨hw', _⟩ := ihRAB child c child' total c' hrab hwfc
          refine ⟨.list _ _ _ hw', rfl, ?_, fun k hs => .list _ _ _ _⟩
          intro n hi
          cases hi with
          | list _ _ _ _ h => exact .list _ _ _ _ (by simp [h])
      | mapD fl ko mo kd vd cnt =>
        simp only [decodeD] at hdec
        cases hrmb : readMapBlocks f ko kd vd c with
        | error e => rw [hrmb] at hdec; cases hdec
        | ok p =>
          obtain ⟨ko', kd', vd', newly, c₁⟩ := p
          rw [hrmb] at hdec
          cases hdec
          have hwfv : WfD vd := by cases hwf with | mapD _ _ _ _ _ _ h => exact h
          obtain ⟨hw', _⟩ := ihRMB ko kd vd c ko' kd' vd' newly c' hrmb hwfv
          refine ⟨.mapD _ _ _ _ _ _ hw', rfl, ?_, fun k hs => .mapD _ _ _ _ _ _ _⟩
          intro n hi
          cases hi with
          | mapD _ _ _ _ _ _ _ h => exact .mapD _ _ _ _ _ _ _ (by simp [h])
      | nullable nb ns child =>
        have hwfc : WfD child := by
          cases hwf with | nullable _ _ _ h _ => exact h
        have hnn : child.is_nullable = false := by
          cases hwf with | nullable _ _ _ _ hnn => exact hnn
        simp only [decodeD] at hdec
        cases hg : getInt c with
        | none => rw [hg] at hdec; cases hdec
        | some p =>
          obtain ⟨branch, c₁⟩ := p
          rw [hg] at hdec
          have main : ∀ (vbit : Bool) (child' : Decoder),
              (vbit = false → appendNull f child = some child') →
              (vbit = true → ∃ c₂, decodeD f child c₁ = .ok (child', c₂)) →
              d' = .nullable nb (ns ++ [vbit]) child' →
              WfD d' ∧ d'.is_nullable = (Decoder.nullable nb ns child).is_nullable ∧
              (∀ n, InvTop (.nullable nb ns child) n → InvTop d' (n + 1)) ∧
              (∀ k, SelfAdv (.nullable nb ns child) k → SelfAdv d' (k + 1)) := by
            intro vbit child' hfa hdc hd'
            subst hd'
            have hch : WfD child' ∧ child'.is_nullable = child.is_nullable ∧
                (∀ k, SelfAdv child k → SelfAdv child' (k + 1)) := by
              cases vbit with
              | false =>
                obtain ⟨h1, h2, h3⟩ := ihA child child' (hfa rfl) hwfc
                exact ⟨h1, h2, h3 hnn⟩
              | true =>
                obtain ⟨c₂, hdc'⟩ := hdc rfl
                obtain ⟨h1, h2, _, h4⟩ := ihD child c₁ child' c₂ hdc' hwfc
                exact ⟨h1, h2, h4⟩
            obtain ⟨hw', hpres, hadv⟩ := hch
            refine ⟨.nullable _ _ _ hw' (by rw [hpres]; exact hnn), rfl, ?_, ?_⟩
            · intro n hi
              cases hi with
              | nullable _ _ _ _ h1 h2 =>
                exact .nullable _ _ _ _ (by simp [h1]) (hadv n h2)
            · intro k hs
              cases hs with
              | nullable _ _ _ _ h1 h2 =>
                exact .nullable _ _ _ _ (by simp [h1]) (hadv k h2)
          cases nb with
          | nullFirst =>
            dsimp only [] at hdec
            by_cases hb0 : branch = 0
            · rw [if_pos hb0] at hdec
              cases han : appendNull f child with
              | none => rw [han] at hdec; cases hdec
              | some child' =>
                rw [han] at hdec
                cases hdec
                exact main false child' (fun _ => han) (fun h => by cases h) rfl
            · rw [if_neg hb0] at hdec
              by_cases hb1 : branch = 1
              · rw [if_pos hb1] at hdec
                cases hdc : decodeD f child c₁ with
                | error e => rw [hdc] at hdec; cases hdec
                | ok q =>
                  obtain ⟨child', c₂⟩ := q
                  rw [hdc] at hdec
                  cases hdec
                  exact main true child' (fun h => by cases h)
                    (fun _ => ⟨c', hdc⟩) rfl
              · rw [if_neg hb1] at hdec
                cases hdec
          | nullSecond =>
            dsimp only [] at hdec
            by_cases hb0 : branch = 0
            · rw [if_pos hb0] at hdec
              cases hdc : decodeD f child c₁ with
              | error e => rw [hdc] at hdec; cases hdec
              | ok q =>
                obtain ⟨child', c₂⟩ := q
                rw [hdc] at hdec
                cases hdec
                exact main true child' (fun h => by cases h) (fun _ => ⟨c', hdc⟩) rfl
            · rw [if_neg hb0] at hdec
              by_cases hb1 : branch = 1
              · rw [if_pos hb1] at hdec
                cases han : appendNull f child with
                | none => rw [han] at hdec; cases hdec
                | some child' =>
                  rw [han] at hdec
                  cases hdec
                  exact main false child' (fun _ => han) (fun h => by cases h) rfl
              · rw [if_neg hb1] at hdec
                cases hdec
      | fixed sz buf =>
        simp only [decodeD] at hdec
        cases hg : getFixed (usizeOfInt sz) c with
        | none => rw [hg] at hdec; cases hdec
        | some p =>
          obtain ⟨bs, c₁⟩ := p
          rw [hg] at hdec
          cases hdec
          obtain ⟨_, _, hlen⟩ := getFixed_some _ _ _ _ hg
          have hb : (-(2 ^ 31) : Int) ≤ sz ∧ sz < 2 ^ 31 := by
            cases hwf with | fixed _ _ h1 h2 => exact ⟨h1, h2⟩
          refine ⟨.fixed _ _ hb.1 hb.2, rfl, ?_, fun k hs => by cases hs; exact .fixed _ _ _⟩
          intro n hi
          cases hi with
          | fixed _ _ _ h =>
            refine .fixed _ _ _ ?_
            simp only [List.length_append, h, hlen]
            ring
      | decimal p s z b =>
        simp only [decodeD] at hdec
        cases hr : (match z with
                    | some szv => getFixed szv c
                    | none => getBytes c) with
        | none => rw [hr] at hdec; cases hdec
        | some q =>
          obtain ⟨bs, c₁⟩ := q
          rw [hr] at hdec
          dsimp only [] at hdec
          cases hab : DecimalBuilder.appendBytes b bs with
          | error e => rw [hab] at hdec; cases hdec
          | ok b' =>
            rw [hab] at hdec
            cases hdec
            refine ⟨.decimal _ _ _ _, rfl, ?_,
              fun k hs => by cases hs; exact .decimal _ _ _ _ _⟩
            intro n hi
            cases hi with
            | decimal _ _ _ _ _ h =>
              exact .decimal _ _ _ _ _ (by rw [appendBytes_length b b' bs hab, h])
      | date32 v =>
        simp only [decodeD] at hdec
        cases hg : getInt c with
        | none => rw [hg] at hdec; cases hdec
        | some p =>
          obtain ⟨i, c₁⟩ := p
          rw [hg] at hdec
          cases hdec
          refine ⟨.date32 _, rfl, ?_, fun k hs => by cases hs; exact .date32 _ _⟩
          intro n hi
          cases hi with
          | date32 _ _ h => exact .date32 _ _ (by simp [h])
      | timeMillis v =>
        simp only [decodeD] at hdec
        cases hg : getInt c with
        | none => rw [hg] at hdec; cases hdec
        | some p =>
          obtain ⟨i, c₁⟩ := p
          rw [hg] at hdec
          cases hdec
          refine ⟨.timeMillis _, rfl, ?_, fun k hs => by cases hs; exact .timeMillis _ _⟩
          intro n hi
          cases hi with
          | timeMillis _ _ h => exact .timeMillis _ _ (by simp [h])
      | timeMicros v =>
        simp only [decodeD] at hdec
        cases hg : getLong c with
        | none => rw [hg] at hdec; cases hdec
        | some p =>
          obtain ⟨i, c₁⟩ := p
          rw [hg] at hdec
          cases hdec
          refine ⟨.timeMicros _, rfl, ?_, fun k hs => by cases hs; exact .timeMicros _ _⟩
          intro n hi
          cases hi with
          | timeMicros _ _ h => exact .timeMicros _ _ (by simp [h])
      | timestampMillis u v =>
        simp only [decodeD] at hdec
        cases hg : getLong c with
        | none => rw [hg] at hdec; cases hdec
        | some p =>
          obtain ⟨i, c₁⟩ := p
          rw [hg] at hdec
          cases hdec
          refine ⟨.timestampMillis _ _, rfl, ?_,
            fun k hs => by cases hs; exact .timestampMillis _ _ _⟩
          intro n hi
          cases hi with
          | timestampMillis _ _ _ h => exact .timestampMillis _ _ _ (by simp [h])
      | timestampMicros u v =>
        simp only [decodeD] at hdec
        cases hg : getLong c with
        | none => rw [hg] at hdec; cases hdec
        | some p =>
          obtain ⟨i, c₁⟩ := p
          rw [hg] at hdec
          cases hdec
          refine ⟨.timestampMicros _ _, rfl, ?_,
            fun k hs => by cases hs; exact .timestampMicros _ _ _⟩
          intro n hi
          cases hi with
          | timestampMicros _ _ _ h => exact .timestampMicros _ _ _ (by simp [h])
      | interval v =>
        simp only [decodeD] at hdec
        cases hg : getFixed 12 c with
        | none => rw [hg] at hdec; cases hdec
        | some p =>
          obtain ⟨raw, c₁⟩ := p
          rw [hg] at hdec
          cases hdec
          refine ⟨.interval _, rfl, ?_, ?_⟩
          · intro n hi
            cases hi with
            | interval _ _ h => exact .interval _ _ (by simp [h])
          · intro k hs
            cases hs with
            | interval _ _ h => exact .interval _ _ (by simp [h])
    -- decodeFields
    · intro ds c ds' c' hdec hwf
      cases ds with
      | nil =>
        simp only [decodeFields] at hdec
        cases hdec
        exact ⟨by simp, fun n _ => by simp⟩
      | cons d dt =>
        simp only [decodeFields] at hdec
        cases hd0 : decodeD f d c with
        | error e => rw [hd0] at hdec; cases hdec
        | ok p =>
          obtain ⟨d₁, c₁⟩ := p
          rw [hd0] at hdec
          dsimp only [] at hdec
          cases hds : decodeFields f dt c₁ with
          | error e => rw [hds] at hdec; cases hdec
          | ok q =>
            obtain ⟨ds₁, c₂⟩ := q
            rw [hds] at hdec
            cases hdec
            obtain ⟨hw1, _, hi1, _⟩ := ihD d c d₁ c₁ hd0 (hwf d (by simp))
            obtain ⟨hwT, hiT⟩ := ihF dt c₁ ds₁ c' hds
              (fun x hx => hwf x (by simp [hx]))
            refine ⟨?_, ?_⟩
            · intro d' hd'
              rcases List.mem_cons.mp hd' with h | h
              · subst h; exact hw1
              · exact hwT d' h
            · intro n hall d' hd'
              rcases List.mem_cons.mp hd' with h | h
              · subst h; exact hi1 n (hall d (by simp))
              · exact hiT n (fun x hx => hall x (by simp [hx])) d' h
    -- readArrayBlocks
    · intro ch c ch' t c' hdec hwf
      simp only [readArrayBlocks] at hdec
      cases hg : getLong c with
      | none => rw [hg] at hdec; cases hdec
      | some p =>
        obtain ⟨bc, c₁⟩ := p
        rw [hg] at hdec
        dsimp only [] at hdec
        by_cases hz : bc = 0
        · rw [if_pos hz] at hdec
          cases hdec
          exact ⟨hwf, rfl⟩
        · rw [if_neg hz] at hdec
          by_cases hneg : bc < 0
          · rw [if_pos hneg] at hdec
            cases hg2 : getLong c₁ with
            | none => rw [hg2] at hdec; cases hdec
            | some q =>
              obtain ⟨sz, c₂⟩ := q
              rw [hg2] at hdec
              dsimp only [] at hdec
              cases hri : readItems f (-bc).toNat ch c₂ with
              | error e => rw [hri] at hdec; cases hdec
              | ok r =>
                obtain ⟨ch₁, c₃⟩ := r
                rw [hri] at hdec
                dsimp only [] at hdec
                cases hrab : readArrayBlocks f ch₁ c₃ with
                | error e => rw [hrab] at hdec; cases hdec
                | ok s =>
                  obtain ⟨ch₂, t₂, c₄⟩ := s
                  rw [hrab] at hdec
                  cases hdec
                  obtain ⟨hw1, hn1⟩ := ihRI (-bc).toNat ch c₂ ch₁ c₃ hri hwf
                  obtain ⟨hw2, hn2⟩ := ihRAB ch₁ c₃ ch' t₂ c' hrab hw1
                  exact ⟨hw2, by rw [hn2, hn1]⟩
          · rw [if_neg hneg] at hdec
            cases hri : readItems f bc.toNat ch c₁ with
            | error e => rw [hri] at hdec; cases hdec
            | ok r =>
              obtain ⟨ch₁, c₂⟩ := r
              rw [hri] at hdec
              dsimp only [] at hdec
              cases hrab : readArrayBlocks f ch₁ c₂ with
              | error e => rw [hrab] at hdec; cases hdec
              | ok s =>
                obtain ⟨ch₂, t₂, c₃⟩ := s
                rw [hrab] at hdec
                cases hdec
                obtain ⟨hw1, hn1⟩ := ihRI bc.toNat ch c₁ ch₁ c₂ hri hwf
                obtain ⟨hw2, hn2⟩ := ihRAB ch₁ c₂ ch' t₂ c' hrab hw1
                exact ⟨hw2, by rw [hn2, hn1]⟩
    -- readItems
    · intro n ch c ch' c' hdec hwf
      cases n with
      | zero =>
        simp only [readItems] at hdec
        cases hdec
        exact ⟨hwf, rfl⟩
      | succ m =>
        simp only [readItems] at hdec
        cases hd0 : decodeD f ch c with
        | error e => rw [hd0] at hdec; cases hdec
        | ok p =>
          obtain ⟨ch₁, c₁⟩ := p
          rw [hd0] at hdec
          dsimp only [] at hdec
          obtain ⟨hw1, hn1, _, _⟩ := ihD ch c ch₁ c₁ hd0 hwf
          obtain ⟨hw2, hn2⟩ := ihRI m ch₁ c₁ ch' c' hdec hw1
          exact ⟨hw2, by rw [hn2, hn1]⟩
    -- readMapBlocks
    · intro ko kd v c ko' kd' v' m c' hdec hwf
      simp only [readMapBlocks] at hdec
      cases hg : getLong c with
      | none => rw [hg] at hdec; cases hdec
      | some p =>
        obtain ⟨bc, c₁⟩ := p
        rw [hg] at hdec
        dsimp only [] at hdec
        by_cases hle : bc ≤ 0
        · rw [if_pos hle] at hdec
          cases hdec
          exact ⟨hwf, rfl⟩
        · rw [if_neg hle] at hdec
          cases hrm : readMapItems f bc.toNat ko kd v c₁ with
          | error e => rw [hrm] at hdec; cases hdec
          | ok q =>
            obtain ⟨ko₁, kd₁, v₁, c₂⟩ := q
            rw [hrm] at hdec
            cases hdec
            exact ihRMI bc.toNat ko kd v c₁ ko' kd' v' c' hrm hwf
    -- readMapItems
    · intro n ko kd v c ko' kd' v' c' hdec hwf
      cases n with
      | zero =>
        simp only [readMapItems] at hdec
        cases hdec
        exact ⟨hwf, rfl⟩
      | succ m =>
        simp only [readMapItems] at hdec
        cases hg : getBytes c with
        | none => rw [hg] at hdec; cases hdec
        | some p =>
          obtain ⟨kb, c₁⟩ := p
          rw [hg] at hdec
          dsimp only [] at hdec
          cases hd0 : decodeD f v c₁ with
          | error e => rw [hd0] at hdec; cases hdec
          | ok q =>
            obtain ⟨v₁, c₂⟩ := q
            rw [hd0] at hdec
            dsimp only [] at hdec
            obtain ⟨hw1, hn1, _, _⟩ := ihD v c₁ v₁ c₂ hd0 hwf
            obtain ⟨hw2, hn2⟩ := ihRMI m (ko ++ [kb.length]) (kd ++ kb) v₁ c₂
              ko' kd' v' c' hdec hw1
            exact ⟨hw2, by rw [hn2, hn1]⟩
    -- appendNull
    · intro d d' han hwf
      cases d with
      | nullD n0 =>
        simp only [appendNull] at han
        cases han
        exact ⟨.nullD _, rfl, fun _ k hs => by cases hs; exact .nullD _⟩
      | boolean v =>
        simp only [appendNull] at han
        cases han
        exact ⟨.boolean _, rfl, fun _ k hs => by cases hs; exact .boolean _ _⟩
      | int32 v =>
        simp only [appendNull] at han
        cases han
        exact ⟨.int32 _, rfl, fun _ k hs => by cases hs; exact .int32 _ _⟩
      | int64 v =>
        simp only [appendNull] at han
        cases han
        exact ⟨.int64 _, rfl, fun _ k hs => by cases hs; exact .int64 _ _⟩
      | float32 v =>
        simp only [appendNull] at han
        cases han
        exact ⟨.float32 _, rfl, fun _ k hs => by cases hs; exact .float32 _ _⟩
      | float64 v =>
        simp only [appendNull] at han
        cases han
        exact ⟨.float64 _, rfl, fun _ k hs => by cases hs; exact .float64 _ _⟩
      | binary off dta =>
        simp only [appendNull] at han
        cases han
        exact ⟨.binary _ _, rfl, fun _ k hs => by cases hs; exact .binary _ _ _⟩
      | stringD off dta =>
        simp only [appendNull] at han
        cases han
        exact ⟨.stringD _ _, rfl, fun _ k hs => by cases hs; exact .stringD _ _ _⟩
      | record fs cs =>
        simp only [appendNull] at han
        cases hal : appendNullList f cs with
        | none => rw [hal] at han; cases han
        | some cs' =>
          rw [hal] at han
          cases han
          have hwfcs : ∀ x ∈ cs, WfD x := by
            cases hwf with | record _ _ h => exact h
          exact ⟨.record _ _ (ihAL cs cs' hal hwfcs), rfl,
            fun _ k hs => .record _ _ _⟩
      | enum s idx =>
        simp only [appendNull] at han
        cases han
        exact ⟨.enum _ _, rfl, fun _ k hs => by cases hs; exact .enum _ _ _⟩
      | list fl off child =>
        simp only [appendNull] at han
        cases hac : appendNull f child with
        | none => rw [hac] at han; cases han
        | some child' =>
          rw [hac] at han
          cases han
          have hwfc : WfD child := by cases hwf with | list _ _ _ h => exact h
          obtain ⟨hw', _, _⟩ := ihA child child' hac hwfc
          exact ⟨.list _ _ _ hw', rfl, fun _ k hs => .list _ _ _ _⟩
      | mapD fl ko mo kd vd cnt =>
        simp only [appendNull] at han
        cases han
        have hwfv : WfD vd := by cases hwf with | mapD _ _ _ _ _ _ h => exact h
        exact ⟨.mapD _ _ _ _ _ _ hwfv, rfl, fun _ k hs => .mapD _ _ _ _ _ _ _⟩
      | nullable nb ns child =>
        simp only [appendNull] at han
        cases han
        refine ⟨hwf, rfl, ?_⟩
        intro hfalse
        simp [Decoder.is_nullable] at hfalse
      | fixed sz buf =>
        simp only [appendNull] at han
        cases han
        have hb : (-(2 ^ 31) : Int) ≤ sz ∧ sz < 2 ^ 31 := by
          cases hwf with | fixed _ _ h1 h2 => exact ⟨h1, h2⟩
        exact ⟨.fixed _ _ hb.1 hb.2, rfl, fun _ k hs => by cases hs; exact .fixed _ _ _⟩
      | decimal p s z b =>
        simp only [appendNull] at han
        cases han
        exact ⟨.decimal _ _ _ _, rfl, fun _ k hs => by cases hs; exact .decimal _ _ _ _ _⟩
      | date32 v =>
        simp only [appendNull] at han
        cases han
        exact ⟨.date32 _, rfl, fun _ k hs => by cases hs; exact .date32 _ _⟩
      | timeMillis v =>
        simp only [appendNull] at han
        cases han
        exact ⟨.timeMillis _, rfl, fun _ k hs => by cases hs; exact .timeMillis _ _⟩
      | timeMicros v =>
        simp only [appendNull] at han
        cases han
        exact ⟨.timeMicros _, rfl, fun _ k hs => by cases hs; exact .timeMicros _ _⟩
      | timestampMillis u v =>
        simp only [appendNull] at han
        cases han
        exact ⟨.timestampMillis _ _, rfl,
          fun _ k hs => by cases hs; exact .timestampMillis _ _ _⟩
      | timestampMicros u v =>
        simp only [appendNull] at han
        cases han
        exact ⟨.timestampMicros _ _, rfl,
          fun _ k hs => by cases hs; exact .timestampMicros _ _ _⟩
      | interval v =>
        simp only [appendNull] at han
        cases han
        refine ⟨.interval _, rfl, ?_⟩
        intro _ k hs
        cases hs with
        | interval _ _ h => exact .interval _ _ (by simp [h])
    -- appendNullList
    · intro ds ds' hal hwf
      cases ds with
      | nil =>
        simp only [appendNullList] at hal
        cases hal
        simp
      | cons d dt =>
        simp only [appendNullList] at hal
        cases ha0 : appendNull f d with
        | none => rw [ha0] at hal; cases hal
        | some d₁ =>
          rw [ha0] at hal
          cases hat : appendNullList f dt with
          | none => rw [hat] at hal; cases hal
          | some dt₁ =>
            rw [hat] at hal
            cases hal
            obtain ⟨hw1, _, _⟩ := ihA d d₁ ha0 (hwf d (by simp))
            have hwT := ihAL dt dt₁ hat (fun x hx => hwf x (by simp [hx]))
            intro d' hd'
            rcases List.mem_cons.mp hd' with h | h
            · subst h; exact hw1
            · exact hwT d' h

theorem maskLenOk_some (ms : List Bool) (L : Nat) :
    maskLenOk (some ms) L = true ↔ ms.length = L := by
  simp [maskLenOk]

theorem decimalNew_vals (p : Nat) (s z : Option Nat) (b : DecimalBuilder)
    (h : DecimalBuilder.new p s z = .ok b) : b.vals = [] := by
  cases z with
  | some k =>
    simp only [DecimalBuilder.new] at h
    split_ifs at h <;> cases h <;> rfl
  | none =>
    simp only [DecimalBuilder.new] at h
    split_ifs at h <;> cases h <;> rfl

/-- Flushing a column yields exactly the invariant-tracked length: under a
mask of length `k` with `SelfAdv d k` the array length is `k`; with no
mask, `InvTop d n` gives length `n`; and the reset builder restarts at
zero rows.  Proved for `flushD` and `flushFields` together by induction on
fuel. -/
theorem flush_lengths : ∀ fuel : Nat,
    (∀ d m len d', flushD fuel d m = .ok (len, d') →
      (InvTop d' 0 ∧ SelfAdv d' 0) ∧
      (WfD d → WfD d' ∧ d'.is_nullable = d.is_nullable) ∧
      (∀ k ms, m = some ms → SelfAdv d k → ms.length = k → len = k) ∧
      (∀ n, m = none → WfD d → InvTop d n → len = n)) ∧
    (∀ ds m lens ds', flushFields fuel ds m = .ok (lens, ds') →
      lens.length = ds.length ∧
      (∀ d' ∈ ds', InvTop d' 0 ∧ SelfAdv d' 0) ∧
      ((∀ d ∈ ds, WfD d) → ∀ d' ∈ ds', WfD d') ∧
      (∀ n, m = none → (∀ d ∈ ds, WfD d) → (∀ d ∈ ds, InvTop d n) →
        ∀ l ∈ lens, l = n)) := by
  intro fuel
  induction fuel with
  | zero =>
    constructor <;> intros <;> simp_all [flushD, flushFields]
  | succ f ih =>
    obtain ⟨ihD, ihF⟩ := ih
    constructor
    · intro d m len d' hfl
      cases d with
      | nullD n0 =>
        simp only [flushD] at hfl
        cases hfl
        refine ⟨⟨.nullD 0, .nullD 0⟩, fun _ => ⟨.nullD _, rfl⟩, ?_, ?_⟩
        · intro k ms hm hs hmsk
          cases hs
          rfl
        · intro n _ _ hi
          cases hi
          rfl
      | boolean v =>
        simp only [flushD] at hfl
        by_cases hmask : maskLenOk m v.length = true
        · rw [if_pos hmask] at hfl
          cases hfl
          refine ⟨⟨.boolean _ _ rfl, .boolean _ _⟩, fun _ => ⟨.boolean _, rfl⟩, ?_, ?_⟩
          · intro k ms hm hs hmsk
            subst hm
            have := (maskLenOk_some ms v.length).mp hmask
            omega
          · intro n _ _ hi
            cases hi with
            | boolean _ _ h => exact h
        · rw [if_neg hmask] at hfl
          cases hfl
      | int32 v =>
        simp only [flushD] at hfl
        by_cases hmask : maskLenOk m v.length = true
        · rw [if_pos hmask] at hfl
          cases hfl
          refine ⟨⟨.int32 _ _ rfl, .int32 _ _⟩, fun _ => ⟨.int32 _, rfl⟩, ?_, ?_⟩
          · intro k ms hm hs hmsk
            subst hm
            have := (maskLenOk_some ms v.length).mp hmask
            omega
          · intro n _ _ hi
            cases hi with
            | int32 _ _ h => exact h
        · rw [if_neg hmask] at hfl
          cases hfl
      | int64 v =>
        simp only [flushD] at hfl
        by_cases hmask : maskLenOk m v.length = true
        · rw [if_pos hmask] at hfl
          cases hfl
          refine ⟨⟨.int64 _ _ rfl, .int64 _ _⟩, fun _ => ⟨.int64 _, rfl⟩, ?_, ?_⟩
          · intro k ms hm hs hmsk
            subst hm
            have := (maskLenOk_some ms v.length).mp hmask
            omega
          · intro n _ _ hi
            cases hi with
            | int64 _ _ h => exact h
        · rw [if_neg hmask] at hfl
          cases hfl
      | float32 v =>
        simp only [flushD] at hfl
        by_cases hmask : maskLenOk m v.length = true
        · rw [if_pos hmask] at hfl
          cases hfl
          refine ⟨⟨.float32 _ _ rfl, .float32 _ _⟩, fun _ => ⟨.float32 _, rfl⟩, ?_, ?_⟩
          · intro k ms hm hs hmsk
            subst hm
            have := (maskLenOk_some ms v.length).mp hmask
            omega
          · intro n _ _ hi
            cases hi with
            | float32 _ _ h => exact h
        · rw [if_neg hmask] at hfl
          cases hfl
      | float64 v =>
        simp only [flushD] at hfl
        by_cases hmask : maskLenOk m v.length = true
        · rw [if_pos hmask] at hfl
          cases hfl
          refine ⟨⟨.float64 _ _ rfl, .float64 _ _⟩, fun _ => ⟨.float64 _, rfl⟩, ?_, ?_⟩
          · intro k ms hm hs hmsk
            subst hm
            have := (maskLenOk_some ms v.length).mp hmask
            omega
          · intro n _ _ hi
            cases hi with
            | float64 _ _ h => exact h
        · rw [if_neg hmask] at hfl
          cases hfl
      | binary off dta =>
        simp only [flushD] at hfl
        by_cases hg : maskLenOk m off.length = true ∧ off.sum ≤ dta.length
        · rw [if_pos hg] at hfl
          cases hfl
          refine ⟨⟨.binary _ _ _ rfl, .binary _ _ _⟩, fun _ => ⟨.binary _ _, rfl⟩, ?_, ?_⟩
          · intro k ms hm hs hmsk
            subst hm
            have := (maskLenOk_some ms off.length).mp hg.1
            omega
          · intro n _ _ hi
            cases hi with
            | binary _ _ _ h => exact h
        · rw [if_neg hg] at hfl
          cases hfl
      | stringD off dta =>
        simp only [flushD] at hfl
        by_cases hg : maskLenOk m off.length = true ∧ off.sum ≤ dta.length
        · rw [if_pos hg] at hfl
          cases hfl
          refine ⟨⟨.stringD _ _ _ rfl, .stringD _ _ _⟩,
            fun _ => ⟨.stringD _ _, rfl⟩, ?_, ?_⟩
          · intro k ms hm hs hmsk
            subst hm
            have := (maskLenOk_some ms off.length).mp hg.1
            omega
          · intro n _ _ hi
            cases hi with
            | stringD _ _ _ h => exact h
        · rw [if_neg hg] at hfl
          cases hfl
      | record fs cs =>
        simp only [flushD] at hfl
        cases hff : flushFields f cs m with
        | error e => rw [hff] at hfl; cases hfl
        | ok p =>
          obtain ⟨lens0, cs'⟩ := p
          rw [hff] at hfl
          dsimp only [] at hfl
          cases lens0 with
          | nil => cases hfl
          | cons l rest =>
            dsimp only [] at hfl
            by_cases hg : rest.all (fun x => x == l) = true ∧ maskLenOk m l = true
            · rw [if_pos hg] at hfl
              cases hfl
              obtain ⟨hlen, hreset, hwfp, hC⟩ := ihF cs m (len :: rest) cs' hff
              refine ⟨⟨.record _ _ _ (fun c hc => (hreset c hc).1), .record _ _ _⟩,
                ?_, ?_, ?_⟩
              · intro hw
                cases hw with
                | record _ _ h => exact ⟨.record _ _ (hwfp h), rfl⟩
              · intro k ms hm hs hmsk
                subst hm
                have := (maskLenOk_some ms len).mp hg.2
                omega
              · intro n hm hw hi
                cases hi with
                | record _ _ _ hcs =>
                  cases hw with
                  | record _ _ hwcs => exact hC n hm hwcs hcs len (by simp)
            · rw [if_neg hg] at hfl
              cases hfl
      | enum syms idxs =>
        simp only [flushD] at hfl
        by_cases hg : maskLenOk m idxs.length = true ∧
            enumKeysOk idxs m syms.length = true
        · rw [if_pos hg] at hfl
          cases hfl
          refine ⟨⟨.enum _ _ _ rfl, .enum _ _ _⟩, fun _ => ⟨.enum _ _, rfl⟩, ?_, ?_⟩
          · intro k ms hm hs hmsk
            subst hm
            have := (maskLenOk_some ms idxs.length).mp hg.1
            omega
          · intro n _ _ hi
            cases hi with
            | enum _ _ _ h => exact h
        · rw [if_neg hg] at hfl
          cases hfl
      | list fl off child =>
        simp only [flushD] at hfl
        cases hfc : flushD f child none with
        | error e => rw [hfc] at hfl; cases hfl
        | ok p =>
          obtain ⟨childLen, child'⟩ := p
          rw [hfc] at hfl
          dsimp only [] at hfl
          by_cases hg : off.sum ≤ childLen ∧ maskLenOk m off.length = true
          · rw [if_pos hg] at hfl
            cases hfl
            obtain ⟨⟨hres1, hres2⟩, hwf', hA, hC⟩ := ihD child none childLen child' hfc
            refine ⟨⟨.list _ _ _ _ rfl, .list _ _ _ _⟩, ?_, ?_, ?_⟩
            · intro hw
              cases hw with
              | list _ _ _ h =>
                obtain ⟨hw', _⟩ := hwf' h
                exact ⟨.list _ _ _ hw', rfl⟩
            · intro k ms hm hs hmsk
              subst hm
              have := (maskLenOk_some ms off.length).mp hg.2
              omega
            · intro n _ _ hi
              cases hi with
              | list _ _ _ _ h => exact h
          · rw [if_neg hg] at hfl
            cases hfl
      | mapD fl ko mo kd vd cnt =>
        simp only [flushD] at hfl
        cases hfc : flushD f vd none with
        | error e => rw [hfc] at hfl; cases hfl
        | ok p =>
          obtain ⟨valLen, v'⟩ := p
          rw [hfc] at hfl
          dsimp only [] at hfl
          by_cases hg : ko.sum ≤ kd.length ∧ ko.length = valLen ∧
              mo.sum ≤ ko.length ∧ maskLenOk m mo.length = true
          · rw [if_pos hg] at hfl
            cases hfl
            obtain ⟨⟨hres1, hres2⟩, hwf', hA, hC⟩ := ihD vd none valLen v' hfc
            refine ⟨⟨.mapD _ _ _ _ _ _ _ rfl, .mapD _ _ _ _ _ _ _⟩, ?_, ?_, ?_⟩
            · intro hw
              cases hw with
              | mapD _ _ _ _ _ _ h =>
                obtain ⟨hw', _⟩ := hwf' h
                exact ⟨.mapD _ _ _ _ _ _ hw', rfl⟩
            · intro k ms hm hs hmsk
              subst hm
              have := (maskLenOk_some ms mo.length).mp hg.2.2.2
              omega
            · intro n _ _ hi
              cases hi with
              | mapD _ _ _ _ _ _ _ h => exact h
          · rw [if_neg hg] at hfl
            cases hfl
      | nullable nb ns child =>
        simp only [flushD] at hfl
        cases hfc : flushD f child (some ns) with
        | error e => rw [hfc] at hfl; cases hfl
        | ok p =>
          obtain ⟨clen, child'⟩ := p
          rw [hfc] at hfl
          cases hfl
          obtain ⟨⟨hres1, hres2⟩, hwf', hA, hC⟩ := ihD child (some ns) len child' hfc
          refine ⟨⟨.nullable _ _ _ _ rfl hres2, .nullable _ _ _ _ rfl hres2⟩,
            ?_, ?_, ?_⟩
          · intro hw
            cases hw with
            | nullable _ _ _ h hnn =>
              obtain ⟨hw', hnp⟩ := hwf' h
              exact ⟨.nullable _ _ _ hw' (by rw [hnp]; exact hnn), rfl⟩
          · intro k ms hm hs hmsk
            cases hs with
            | nullable _ _ _ _ h1 h2 => exact hA k ns rfl h2 h1
          · intro n _ _ hi
            cases hi with
            | nullable _ _ _ _ h1 h2 => exact hA n ns rfl h2 h1
      | fixed sz buf =>
        simp only [flushD] at hfl
        by_cases hpos : 0 < sz
        · rw [if_pos hpos] at hfl
          by_cases hg : buf.length % sz.toNat = 0 ∧
              maskLenOk m (buf.length / sz.toNat) = true
          · rw [if_pos hg] at hfl
            cases hfl
            refine ⟨⟨.fixed _ _ _ (by simp), .fixed _ _ _⟩, ?_, ?_, ?_⟩
            · intro hw
              cases hw with
              | fixed _ _ h1 h2 => exact ⟨.fixed _ _ h1 h2, rfl⟩
            · intro k ms hm hs hmsk
              subst hm
              have := (maskLenOk_some ms (buf.length / sz.toNat)).mp hg.2
              omega
            · intro n _ hw hi
              cases hi with
              | fixed _ _ _ h =>
                cases hw with
                | fixed _ _ h1 h2 =>
                  have husz : usizeOfInt sz = sz.toNat := by
                    simp only [usizeOfInt]
                    have h64 : (2 : Int) ^ 64 = 18446744073709551616 := by norm_num
                    have h31 : (2 : Int) ^ 31 = 2147483648 := by norm_num
                    rw [h64]
                    rw [h31] at h2
                    omega
                  rw [husz] at h
                  rw [h]
                  have hszpos : 0 < sz.toNat := by omega
                  exact Nat.mul_div_cancel _ hszpos
          · rw [if_neg hg] at hfl
            cases hfl
        · rw [if_neg hpos] at hfl
          cases hfl
      | decimal p s z b =>
        simp only [flushD] at hfl
        cases hnew : DecimalBuilder.new p s z with
        | error e => rw [hnew] at hfl; cases hfl
        | ok newB =>
          rw [hnew] at hfl
          dsimp only [] at hfl
          by_cases hg : maskLenOk m b.vals.length = true ∧ decimalFinishOk p s b = true
          · rw [if_pos hg] at hfl
            cases hfl
            have hnv : newB.vals = [] := decimalNew_vals p s z newB hnew
            refine ⟨⟨.decimal _ _ _ _ _ (by rw [hnv]; rfl), .decimal _ _ _ _ _⟩,
              fun _ => ⟨.decimal _ _ _ _, rfl⟩, ?_, ?_⟩
            · intro k ms hm hs hmsk
              subst hm
              have := (maskLenOk_some ms b.vals.length).mp hg.1
              omega
            · intro n _ _ hi
              cases hi with
              | decimal _ _ _ _ _ h => exact h
          · rw [if_neg hg] at hfl
            cases hfl
      | date32 v =>
        simp only [flushD] at hfl
        by_cases hmask : maskLenOk m v.length = true
        · rw [if_pos hmask] at hfl
          cases hfl
          refine ⟨⟨.date32 _ _ rfl, .date32 _ _⟩, fun _ => ⟨.date32 _, rfl⟩, ?_, ?_⟩
          · intro k ms hm hs hmsk
            subst hm
            have := (maskLenOk_some ms v.length).mp hmask
            omega
          · intro n _ _ hi
            cases hi with
            | date32 _ _ h => exact h
        · rw [if_neg hmask] at hfl
          cases hfl
      | timeMillis v =>
        simp only [flushD] at hfl
        by_cases hmask : maskLenOk m v.length = true
        · rw [if_pos hmask] at hfl
          cases hfl
          refine ⟨⟨.timeMillis _ _ rfl, .timeMillis _ _⟩,
            fun _ => ⟨.timeMillis _, rfl⟩, ?_, ?_⟩
          · intro k ms hm hs hmsk
            subst hm
            have := (maskLenOk_some ms v.length).mp hmask
            omega
          · intro n _ _ hi
            cases hi with
            | timeMillis _ _ h => exact h
        · rw [if_neg hmask] at hfl
          cases hfl
      | timeMicros v =>
        simp only [flushD] at hfl
        by_cases hmask : maskLenOk m v.length = true
        · rw [if_pos hmask] at hfl
          cases hfl
          refine ⟨⟨.timeMicros _ _ rfl, .timeMicros _ _⟩,
            fun _ => ⟨.timeMicros _, rfl⟩, ?_, ?_⟩
          · intro k ms hm hs hmsk
            subst hm
            have := (maskLenOk_some ms v.length).mp hmask
            omega
          · intro n _ _ hi
            cases hi with
            | timeMicros _ _ h => exact h
        · rw [if_neg hmask] at hfl
          cases hfl
      | timestampMillis u v =>
        simp only [flushD] at hfl
        by_cases hmask : maskLenOk m v.length = true
        · rw [if_pos hmask] at hfl
          cases hfl
          refine ⟨⟨.timestampMillis _ _ _ rfl, .timestampMillis _ _ _⟩,
            fun _ => ⟨.timestampMillis _ _, rfl⟩, ?_, ?_⟩
          · intro k ms hm hs hmsk
            subst hm
            have := (maskLenOk_some ms v.length).mp hmask
            omega
          · intro n _ _ hi
            cases hi with
            | timestampMillis _ _ _ h => exact h
        · rw [if_neg hmask] at hfl
          cases hfl
      | timestampMicros u v =>
        simp only [flushD] at hfl
        by_cases hmask : maskLenOk m v.length = true
        · rw [if_pos hmask] at hfl
          cases hfl
          refine ⟨⟨.timestampMicros _ _ _ rfl, .timestampMicros _ _ _⟩,
            fun _ => ⟨.timestampMicros _ _, rfl⟩, ?_, ?_⟩
          · intro k ms hm hs hmsk
            subst hm
            have := (maskLenOk_some ms v.length).mp hmask
            omega
          · intro n _ _ hi
            cases hi with
            | timestampMicros _ _ _ h => exact h
        · rw [if_neg hmask] at hfl
          cases hfl
      | interval v =>
        simp only [flushD] at hfl
        cases hfl
        refine ⟨⟨.interval _ _ rfl, .interval _ _ rfl⟩,
          fun _ => ⟨.interval _, rfl⟩, ?_, ?_⟩
        · intro k ms hm hs hmsk
          cases hs with
          | interval _ _ h => exact h
        · intro n _ _ hi
          cases hi with
          | interval _ _ h => exact h
    · intro ds m lens ds' hff
      cases ds with
      | nil =>
        simp only [flushFields] at hff
        cases hff
        exact ⟨rfl, by simp, fun _ => by simp, fun n _ _ _ => by simp⟩
      | cons d dt =>
        simp only [flushFields] at hff
        cases hf0 : flushD f d m with
        | error e => rw [hf0] at hff; cases hff
        | ok p =>
          obtain ⟨len0, d₁⟩ := p
          rw [hf0] at hff
          dsimp only [] at hff
          cases hft : flushFields f dt m with
          | error e => rw [hft] at hff; cases hff
          | ok q =>
            obtain ⟨lens1, ds₁⟩ := q
            rw [hft] at hff
            cases hff
            obtain ⟨hres, hwf', hA, hC⟩ := ihD d m len0 d₁ hf0
            obtain ⟨hlenT, hresT, hwfT, hCT⟩ := ihF dt m lens1 ds₁ hft
            refine ⟨by simp [hlenT], ?_, ?_, ?_⟩
            · intro x hx
              rcases List.mem_cons.mp hx with h | h
              · subst h; exact hres
              · exact hresT x h
            · intro hw x hx
              rcases List.mem_cons.mp hx with h | h
              · subst h; exact (hwf' (hw d (by simp))).1
              · exact hwfT (fun y hy => hw y (by simp [hy])) x h
            · intro n hm hw hi x hx
              rcases List.mem_cons.mp hx with h | h
              · subst h; exact hC n hm (hw d (by simp)) (hi d (by simp))
              · exact hCT n hm (fun y hy => hw y (by simp [hy]))
                  (fun y hy => hi y (by simp [hy])) x h

theorem tryNew_wrap (nbo : Option Nullability) (bdec d : Decoder)
    (h1 : WfD bdec) (h2 : InvTop bdec 0) (h3 : SelfAdv bdec 0)
    (h4 : bdec.is_nullable = false)
    (h : (match nbo with
          | some nb => (Except.ok (Decoder.nullable nb [] bdec) :
              Except AErr Decoder)
          | none => Except.ok bdec) = .ok d) :
    WfD d ∧ InvTop d 0 ∧ SelfAdv d 0 ∧ d.is_nullable = nbo.isSome := by
  cases nbo with
  | none =>
    cases h
    exact ⟨h1, h2, h3, by rw [h4]; rfl⟩
  | some nb =>
    cases h
    exact ⟨.nullable _ _ _ h1 h4, .nullable _ _ _ _ rfl h3,
      .nullable _ _ _ _ rfl h3, rfl⟩

/-- `Decoder::try_new` produces a decoder satisfying the C1 invariants at
zero decoded rows, by induction on fuel over `tryNew`/`tryNewFields`. -/
theorem tryNew_init : ∀ fuel : Nat,
    (∀ dt d, Decoder.tryNew fuel dt = .ok d → WfC dt.codec →
      WfD d ∧ InvTop d 0 ∧ SelfAdv d 0 ∧
      d.is_nullable = dt.nullability.isSome) ∧
    (∀ fs fas ds, tryNewFields fuel fs = .ok (fas, ds) →
      (∀ fl ∈ fs, WfC fl.data_type.codec) →
      (∀ d ∈ ds, WfD d) ∧ (∀ d ∈ ds, InvTop d 0)) := by
  intro fuel
  induction fuel with
  | zero =>
    constructor <;> intros <;> simp_all [Decoder.tryNew, tryNewFields]
  | succ f ih =>
    obtain ⟨ihD, ihF⟩ := ih
    constructor
    · intro dt d h hwc
      obtain ⟨nbo, md, cd⟩ := dt
      simp only [Decoder.tryNew] at h
      dsimp only [AvroDataType.codec, AvroDataType.nullability] at h
      dsimp only [AvroDataType.codec] at hwc
      dsimp only [AvroDataType.nullability]
      cases cd with
      | null =>
        try dsimp only [] at h
        exact tryNew_wrap nbo (.nullD 0) _ (.nullD _) (.nullD _) (.nullD _) rfl h
      | boolean =>
        try dsimp only [] at h
        exact tryNew_wrap nbo (.boolean []) _ (.boolean _) (.boolean _ _ rfl) (.boolean _ _) rfl h
      | int32 =>
        try dsimp only [] at h
        exact tryNew_wrap nbo (.int32 []) _ (.int32 _) (.int32 _ _ rfl) (.int32 _ _) rfl h
      | int64 =>
        try dsimp only [] at h
        exact tryNew_wrap nbo (.int64 []) _ (.int64 _) (.int64 _ _ rfl) (.int64 _ _) rfl h
      | float32 =>
        try dsimp only [] at h
        exact tryNew_wrap nbo (.float32 []) _ (.float32 _) (.float32 _ _ rfl) (.float32 _ _) rfl h
      | float64 =>
        try dsimp only [] at h
        exact tryNew_wrap nbo (.float64 []) _ (.float64 _) (.float64 _ _ rfl) (.float64 _ _) rfl h
      | binary =>
        try dsimp only [] at h
        exact tryNew_wrap nbo (.binary [] []) _ (.binary _ _) (.binary _ _ _ rfl) (.binary _ _ _) rfl h
      | string =>
        try dsimp only [] at h
        exact tryNew_wrap nbo (.stringD [] []) _ (.stringD _ _) (.stringD _ _ _ rfl)
          (.stringD _ _ _) rfl h
      | record afs =>
        try dsimp only [] at h
        cases htf : tryNewFields f afs with
        | error e => rw [htf] at h; cases h
        | ok p =>
          obtain ⟨fas, ds0⟩ := p
          rw [htf] at h
          try dsimp only [] at h
          have hwcf : ∀ fl ∈ afs, WfC fl.data_type.codec := by
            cases hwc with | record _ hh => exact hh
          obtain ⟨hwds, hids⟩ := ihF afs fas ds0 htf hwcf
          exact tryNew_wrap nbo (.record fas ds0) _ (.record _ _ hwds) (.record _ _ _ hids)
            (.record _ _ _) rfl h
      | enum keys vals =>
        try dsimp only [] at h
        exact tryNew_wrap nbo (.enum keys []) _ (.enum _ _) (.enum _ _ _ rfl) (.enum _ _ _) rfl h
      | array item =>
        try dsimp only [] at h
        cases hti : Decoder.tryNew f item with
        | error e => rw [hti] at h; cases h
        | ok itemDecoder =>
          rw [hti] at h
          try dsimp only [] at h
          cases hfw : fieldWithName f item "item" with
          | none => rw [hfw] at h; cases h
          | some fa =>
            obtain ⟨n, adt, bq, md2⟩ := fa
            rw [hfw] at h
            try dsimp only [] at h
            have hwci : WfC item.codec := by cases hwc with | array _ hh => exact hh
            obtain ⟨hwd, _, _, _⟩ := ihD item itemDecoder hti hwci
            exact tryNew_wrap nbo (.list (.mk n adt true md2) [] itemDecoder) _ (.list _ _ _ hwd) (.list _ _ _ _ rfl)
              (.list _ _ _ _) rfl h
      | map valueType =>
        try dsimp only [] at h
        cases hfw : fieldWithName f valueType "value" with
        | none => rw [hfw] at h; cases h
        | some fa =>
          obtain ⟨n, adt, bq, md2⟩ := fa
          rw [hfw] at h
          try dsimp only [] at h
          cases htv : Decoder.tryNew f valueType with
          | error e => rw [htv] at h; cases h
          | ok valDecoder =>
            rw [htv] at h
            try dsimp only [] at h
            have hwcv : WfC valueType.codec := by cases hwc with | map _ hh => exact hh
            obtain ⟨hwd, _, _, _⟩ := ihD valueType valDecoder htv hwcv
            exact tryNew_wrap nbo (.mapD (.mk "entries" (.struct [.mk "key" .utf8 false [], .mk n adt true md2]) false []) [] [] [] valDecoder 0) _ (.mapD _ _ _ _ _ _ hwd)
              (.mapD _ _ _ _ _ _ _ rfl) (.mapD _ _ _ _ _ _ _) rfl h
      | fixed n =>
        try dsimp only [] at h
        have hb : (-(2 ^ 31) : Int) ≤ n ∧ n < 2 ^ 31 := by
          cases hwc with | fixed _ h1 h2 => exact ⟨h1, h2⟩
        exact tryNew_wrap nbo (.fixed n []) _ (.fixed _ _ hb.1 hb.2) (.fixed _ _ _ (by simp))
          (.fixed _ _ _) rfl h
      | decimal p s z =>
        try dsimp only [] at h
        cases hnb : DecimalBuilder.new p s z with
        | error e => rw [hnb] at h; cases h
        | ok b =>
          rw [hnb] at h
          try dsimp only [] at h
          exact tryNew_wrap nbo (.decimal p s z b) _ (.decimal _ _ _ _)
            (.decimal _ _ _ _ _ (by rw [decimalNew_vals p s z b hnb]; rfl))
            (.decimal _ _ _ _ _) rfl h
      | uuid =>
        try dsimp only [] at h
        exact tryNew_wrap nbo (.fixed 16 []) _ (.fixed _ _ (by norm_num) (by norm_num))
          (.fixed _ _ _ (by simp)) (.fixed _ _ _) rfl h
      | date32 =>
        try dsimp only [] at h
        exact tryNew_wrap nbo (.date32 []) _ (.date32 _) (.date32 _ _ rfl) (.date32 _ _) rfl h
      | timeMillis =>
        try dsimp only [] at h
        exact tryNew_wrap nbo (.timeMillis []) _ (.timeMillis _) (.timeMillis _ _ rfl)
          (.timeMillis _ _) rfl h
      | timeMicros =>
        try dsimp only [] at h
        exact tryNew_wrap nbo (.timeMicros []) _ (.timeMicros _) (.timeMicros _ _ rfl)
          (.timeMicros _ _) rfl h
      | timestampMillis u =>
        try dsimp only [] at h
        exact tryNew_wrap nbo (.timestampMillis u []) _ (.timestampMillis _ _) (.timestampMillis _ _ _ rfl)
          (.timestampMillis _ _ _) rfl h
      | timestampMicros u =>
        try dsimp only [] at h
        exact tryNew_wrap nbo (.timestampMicros u []) _ (.timestampMicros _ _) (.timestampMicros _ _ _ rfl)
          (.timestampMicros _ _ _) rfl h
      | duration =>
        try dsimp only [] at h
        exact tryNew_wrap nbo (.interval []) _ (.interval _) (.interval _ _ rfl)
          (.interval _ _ rfl) rfl h
    · intro fs fas ds htf hwcf
      cases fs with
      | nil =>
        simp only [tryNewFields] at htf
        cases htf
        exact ⟨by simp, by simp⟩
      | cons f0 ft =>
        simp only [tryNewFields] at htf
        cases htn : Decoder.tryNew f f0.data_type with
        | error e => rw [htn] at htf; cases htf
        | ok d0 =>
          rw [htn] at htf
          try dsimp only [] at htf
          cases hfa : avroFieldArrow f f0 with
          | none => rw [hfa] at htf; cases htf
          | some fa0 =>
            rw [hfa] at htf
            try dsimp only [] at htf
            cases htr : tryNewFields f ft with
            | error e => rw [htr] at htf; cases htf
            | ok q =>
              obtain ⟨rest1, rest2⟩ := q
              rw [htr] at htf
              cases htf
              obtain ⟨hw0, hi0, _, _⟩ := ihD f0.data_type d0 htn (hwcf f0 (by simp))
              obtain ⟨hwT, hiT⟩ := ihF ft rest1 rest2 htr
                (fun x hx => hwcf x (by simp [hx]))
              constructor
              · intro x hx
                rcases List.mem_cons.mp hx with hh | hh
                · subst hh; exact hw0
                · exact hwT x hh
              · intro x hx
                rcases List.mem_cons.mp hx with hh | hh
                · subst hh; exact hi0
                · exact hiT x hh

theorem decodeRows_preserves (fuel : Nat) :
    ∀ (count : Nat) (ds : List Decoder) (c : List Nat) (ds' : List Decoder)
      (c' : List Nat),
    decodeRows fuel count ds c = .ok (ds', c') →
    (∀ d ∈ ds, WfD d) →
    (∀ d' ∈ ds', WfD d') ∧
    (∀ n, (∀ d ∈ ds, InvTop d n) → ∀ d' ∈ ds', InvTop d' (n + count)) := by
  intro count
  induction count with
  | zero =>
    intro ds c ds' c' h hw
    simp only [decodeRows] at h
    cases h
    exact ⟨hw, fun n hi => by simpa using hi⟩
  | succ m ih =>
    intro ds c ds' c' h hw
    simp only [decodeRows] at h
    cases hdf : decodeFields fuel ds c with
    | error e => rw [hdf] at h; cases h
    | ok p =>
      obtain ⟨ds₁, c₁⟩ := p
      rw [hdf] at h
      dsimp only [] at h
      obtain ⟨hw1, hi1⟩ := (decode_preserves fuel).2.1 ds c ds₁ c₁ hdf hw
      obtain ⟨hw2, hi2⟩ := ih ds₁ c₁ ds' c' h hw1
      refine ⟨hw2, ?_⟩
      intro n hi d' hd'
      have heq : n + 1 + m = n + (m + 1) := by omega
      have hthis := hi2 (n + 1) (hi1 n hi) d' hd'
      rw [heq] at hthis
      exact hthis

theorem recordDecode_preserves (fuel : Nat) (rd rd' : RecordDecoderS)
    (buf : List Nat) (count pos : Nat)
    (h : rd.decode fuel buf count = .ok (rd', pos))
    (hw : ∀ d ∈ rd.fields, WfD d) :
    rd'.schema = rd.schema ∧ (∀ d ∈ rd'.fields, WfD d) ∧
    (∀ n, (∀ d ∈ rd.fields, InvTop d n) →
      ∀ d ∈ rd'.fields, InvTop d (n + count)) := by
  simp only [RecordDecoderS.decode] at h
  cases hdr : decodeRows fuel count rd.fields buf with
  | error e => rw [hdr] at h; cases h
  | ok p =>
    obtain ⟨fields', rest⟩ := p
    rw [hdr] at h
    cases h
    obtain ⟨hw', hi'⟩ :=
      decodeRows_preserves fuel count rd.fields buf fields' rest hdr hw
    exact ⟨rfl, hw', hi'⟩

theorem runDecodes_preserves (fuel : Nat) :
    ∀ (steps : List (Nat × List Nat)) (rd rd' : RecordDecoderS),
    runDecodes fuel rd steps = .ok rd' →
    (∀ d ∈ rd.fields, WfD d) →
    rd'.schema = rd.schema ∧ (∀ d ∈ rd'.fields, WfD d) ∧
    (∀ n, (∀ d ∈ rd.fields, InvTop d n) →
      ∀ d ∈ rd'.fields, InvTop d (n + totalRows steps)) := by
  intro steps
  induction steps with
  | nil =>
    intro rd rd' h hw
    simp only [runDecodes] at h
    cases h
    exact ⟨rfl, hw, fun n hi => by simpa [totalRows] using hi⟩
  | cons st rest ih =>
    intro rd rd' h hw
    obtain ⟨count, buf⟩ := st
    simp only [runDecodes] at h
    cases hdc : RecordDecoderS.decode fuel rd buf count with
    | error e => rw [hdc] at h; cases h
    | ok p =>
      obtain ⟨rd₁, pos⟩ := p
      rw [hdc] at h
      dsimp only [] at h
      obtain ⟨hs1, hw1, hi1⟩ := recordDecode_preserves fuel rd rd₁ buf count pos hdc hw
      obtain ⟨hs2, hw2, hi2⟩ := ih rd₁ rd' h hw1
      refine ⟨by rw [hs2, hs1], hw2, ?_⟩
      intro n hi d hd
      have hthis := hi2 (n + count) (hi1 n hi) d hd
      have heq : n + count + totalRows rest =
          n + totalRows ((count, buf) :: rest) := by
        simp only [totalRows, List.map_cons, List.sum_cons]
        omega
      rw [heq] at hthis
      exact hthis

theorem recordFlush_lengths (fuel : Nat) (rd rd₂ : RecordDecoderS)
    (lens : List Nat) (n : Nat)
    (h : rd.flush fuel = .ok (lens, rd₂))
    (hw : ∀ d ∈ rd.fields, WfD d)
    (hi : ∀ d ∈ rd.fields, InvTop d n) :
    (∀ l ∈ lens, l = n) ∧ rd₂.schema = rd.schema ∧
    (∀ d ∈ rd₂.fields, WfD d) ∧ (∀ d ∈ rd₂.fields, InvTop d 0) := by
  simp only [RecordDecoderS.flush] at h
  cases hff : flushFields fuel rd.fields none with
  | error e => rw [hff] at h; cases h
  | ok p =>
    obtain ⟨lens0, fields'⟩ := p
    rw [hff] at h
    dsimp only [] at h
    cases lens0 with
    | nil => cases h
    | cons l rest =>
      dsimp only [] at h
      by_cases hg : rd.schema.length = (l :: rest).length ∧
          rest.all (fun x => x == l) = true
      · rw [if_pos hg] at h
        cases h
        obtain ⟨hlen, hres, hwf', hC⟩ :=
          (flush_lengths fuel).2 rd.fields none (l :: rest) fields' hff
        exact ⟨hC n rfl hw hi, rfl, hwf' hw, fun d hd => (hres d hd).1⟩
      · rw [if_neg hg] at h
        cases h

/-- C1: for every sequence of successful `decode` calls on a
`RecordDecoder` followed by `flush`, every column of the returned batch
has length equal to the sum of the row counts passed to those `decode`
calls since the previous flush (or since construction): the first flush
yields columns of length `totalRows steps`, and a second round of decodes
from the reset state followed by another flush yields columns of length
`totalRows steps2`. -/
theorem record_decoder_flush_row_count
    (fuel₀ fuel₁ fuel₂ fuel₃ fuel₄ : Nat) (dt : AvroDataType)
    (rd0 rd1 rd2 rd3 rd4 : RecordDecoderS)
    (steps steps2 : List (Nat × List Nat)) (lens lens2 : List Nat)
    (hwc : WfC dt.codec)
    (hnew : RecordDecoderS.tryNew fuel₀ dt = .ok rd0)
    (hrun : runDecodes fuel₁ rd0 steps = .ok rd1)
    (hfl : rd1.flush fuel₂ = .ok (lens, rd2))
    (hrun2 : runDecodes fuel₃ rd2 steps2 = .ok rd3)
    (hfl2 : rd3.flush fuel₄ = .ok (lens2, rd4)) :
    (∀ l ∈ lens, l = totalRows steps) ∧
    (∀ l ∈ lens2, l = totalRows steps2) := by
  simp only [RecordDecoderS.tryNew] at hnew
  cases htn : Decoder.tryNew fuel₀ dt with
  | error e => rw [htn] at hnew; cases hnew
  | ok d0 =>
    rw [htn] at hnew
    obtain ⟨hwd, hid, _, _⟩ := (tryNew_init fuel₀).1 dt d0 htn hwc
    cases d0 with
    | nullD a => cases hnew
    | boolean a => cases hnew
    | int32 a => cases hnew
    | int64 a => cases hnew
    | float32 a => cases hnew
    | float64 a => cases hnew
    | binary a b => cases hnew
    | stringD a b => cases hnew
    | enum a b => cases hnew
    | list a b c => cases hnew
    | mapD a b c d e g => cases hnew
    | nullable a b c => cases hnew
    | fixed a b => cases hnew
    | decimal a b c d => cases hnew
    | date32 a => cases hnew
    | timeMillis a => cases hnew
    | timeMicros a => cases hnew
    | timestampMillis a b => cases hnew
    | timestampMicros a b => cases hnew
    | interval a => cases hnew
    | record fs cs =>
      cases hnew
      have hw0 : ∀ d ∈ cs, WfD d := by
        cases hwd with | record _ _ h => exact h
      have hi0 : ∀ d ∈ cs, InvTop d 0 := by
        cases hid with | record _ _ _ h => exact h
      obtain ⟨hs1, hw1, hi1⟩ :=
        runDecodes_preserves fuel₁ steps ⟨fs, cs⟩ rd1 hrun hw0
      have hi1' : ∀ d ∈ rd1.fields, InvTop d (totalRows steps) := by
        have hh := hi1 0 hi0
        simpa using hh
      obtain ⟨hl1, hs2, hw2, hi2⟩ :=
        recordFlush_lengths fuel₂ rd1 rd2 lens (totalRows steps) hfl hw1 hi1'
      obtain ⟨hs3, hw3, hi3⟩ :=
        runDecodes_preserves fuel₃ steps2 rd2 rd3 hrun2 hw2
      have hi3' : ∀ d ∈ rd3.fields, InvTop d (totalRows steps2) := by
        have hh := hi3 0 hi2
        simpa using hh
      obtain ⟨hl2, _, _, _⟩ :=
        recordFlush_lengths fuel₄ rd3 rd4 lens2 (totalRows steps2) hfl2 hw3 hi3'
      exact ⟨hl1, hl2⟩

theorem record_decoder_flush_row_count_witness :
    runDecodes 8 ⟨[.mk "a" .int32 false []], [.int32 []]⟩
        [(1, [2]), (2, [4, 6])] =
      .ok ⟨[.mk "a" .int32 false []], [.int32 [1, 2, 3]]⟩ ∧
    RecordDecoderS.flush 8 ⟨[.mk "a" .int32 false []], [.int32 [1, 2, 3]]⟩ =
      .ok ([3], ⟨[.mk "a" .int32 false []], [.int32 []]⟩) ∧
    (3 : Nat) = totalRows [(1, [2]), (2, [4, 6])] ∧
    (1 : Nat) = totalRows [(1, [8])] := by
  have h := record_decoder_flush_row_count 8 8 8 8 8
    (AvroDataType.mk none []
      (.record [AvroField.mk "a" (AvroDataType.mk none [] .int32) none]))
    ⟨[.mk "a" .int32 false []], [.int32 []]⟩
    ⟨[.mk "a" .int32 false []], [.int32 [1, 2, 3]]⟩
    ⟨[.mk "a" .int32 false []], [.int32 []]⟩
    ⟨[.mk "a" .int32 false []], [.int32 [4]]⟩
    ⟨[.mk "a" .int32 false []], [.int32 []]⟩
    [(1, [2]), (2, [4, 6])] [(1, [8])] [3] [1]
    (WfC.record _ (fun fl hfl => by
      simp only [List.mem_singleton] at hfl
      subst hfl
      exact WfC.int32))
    rfl rfl rfl rfl rfl
  exact ⟨rfl, rfl, h.1 3 (by simp), h.2 1 (by simp)⟩
